import Mathlib

set_option maxHeartbeats 1000000

/-!
Verification of the EU AI Act chatbot state-reconciliation and
response-extraction engine.

The development shallowly embeds the two relevant source files:
the API route (the sanitizer `sanitizeStateUpdates`, the JSON
extraction and reply cleaning in `handler`, and the pre-network
validation of `handler`) and the client page (the state merger
`mergeState`).

Modelling conventions:
- JavaScript runtime values reaching the sanitizer are untyped; they are
  modelled by the inductive `JsVal`.  Numbers are modelled as integers
  (no claim depends on float rendering).  Property access on `null` or
  `undefined` throws in JavaScript, so access is modelled in the
  `Except String` monad; everything else is total.
- The sanitizer runs on the server; its output travels to the client
  merger through a JSON response (`res.json` then `fetch` + `json()`),
  which drops object keys whose value is `undefined`.  Partial records
  on the typed client side are therefore modelled with `Option` fields,
  `none` meaning "key absent", which is exactly the wire form.
- `Date.now()` is modelled by an explicit `now : Nat` parameter, and
  `JSON.parse` in the response pipeline by an explicit
  `parse : List Char → Option JsVal` parameter (`none` = parse throws).
-/

/-- An untyped JavaScript-like runtime value (the shape of parsed JSON
plus `undefined`). Object fields are an association list; parsed JSON
objects have unique keys and lookup takes the first match. -/
inductive JsVal where
  | null
  | undefVal
  | bool (b : Bool)
  | num (n : Int)
  | str (s : String)
  | arr (elems : List JsVal)
  | obj (fields : List (String × JsVal))

/-- JavaScript truthiness of a value. -/
def jsTruthy : JsVal → Bool
  | .null => false
  | .undefVal => false
  | .bool b => b
  | .num n => !(n == 0)
  | .str s => !(s == "")
  | .arr _ => true
  | .obj _ => true

/-- Whether `typeof v === "object"` holds (true for null, arrays and
plain objects). -/
def typeofIsObject : JsVal → Bool
  | .null => true
  | .arr _ => true
  | .obj _ => true
  | _ => false

/-- Whether `typeof v === "string"` holds. -/
def isStringV : JsVal → Bool
  | .str _ => true
  | _ => false

/-- Underlying string of a string value (only used where the value is
known to be a string). -/
def strOf : JsVal → String
  | .str s => s
  | _ => ""

/-- Field lookup in an object literal; a missing key reads as
`undefined`. -/
def jsLookup (fields : List (String × JsVal)) (k : String) : JsVal :=
  ((fields.find? (fun p => p.1 == k)).map (fun p => p.2)).getD .undefVal

/-- Property access `v[k]`: throws a TypeError on `null`/`undefined`,
reads a key on objects, and yields `undefined` on other values (which
JavaScript boxes). -/
def jsGet : JsVal → String → Except String JsVal
  | .null, k => .error ("TypeError: cannot read properties of null (reading " ++ k ++ ")")
  | .undefVal, k => .error ("TypeError: cannot read properties of undefined (reading " ++ k ++ ")")
  | .obj fields, k => .ok (jsLookup fields k)
  | _, _ => .ok .undefVal

/-- Optional-chaining access `v?.k`: never throws; `null`/`undefined`
read as `undefined`. -/
def jsPropSafe : JsVal → String → JsVal
  | .obj fields, k => jsLookup fields k
  | _, _ => .undefVal

mutual
/-- `String(v)` for one array element inside `Array.prototype.toString`
(a `join(",")`, where `null` and `undefined` render as empty). -/
def jsItemString : JsVal → String
  | .null => ""
  | .undefVal => ""
  | .bool b => cond b "true" "false"
  | .num n => toString n
  | .str s => s
  | .arr xs => jsArrToString xs
  | .obj _ => "[object Object]"

/-- `Array.prototype.toString`, a comma join of the elements. -/
def jsArrToString : List JsVal → String
  | [] => ""
  | [x] => jsItemString x
  | x :: y :: xs => jsItemString x ++ "," ++ jsArrToString (y :: xs)
end

/-- The JavaScript `String(v)` coercion. -/
def jsToString : JsVal → String
  | .null => "null"
  | .undefVal => "undefined"
  | v => jsItemString v

/-- Keep only the string elements of an array
(`xs.filter(x => typeof x === "string")`). -/
def filterStrings (xs : List JsVal) : List String :=
  xs.filterMap (fun x => match x with | .str s => some s | _ => none)

/-! ## The sanitizer (`sanitizeStateUpdates` in `src/pages/api/chat.ts`)

Its output records always carry every key, with value `undefined` for
fields that were dropped; the `Option` fields below record exactly
which values are `undefined`.  (After the JSON round trip to the client
those keys are absent, which the same `Option` representation
describes.) -/

/-- Sanitized `org` record: the four known fields, `none` = `undefined`. -/
structure SanOrg where
  name : Option String
  country : Option String
  industry : Option String
  size : Option String

/-- Sanitized use-case record.  `id` keeps the raw runtime value when
truthy (the source does not coerce it to a string). -/
structure SanUseCase where
  id : JsVal
  name : Option String
  description : Option String
  process : Option String
  inScope : Option Bool
  risk : Option String
  model : Option String
  data : Option (List String)
  subjects : Option (List String)
  owner : Option String
  jurisdictions : Option (List String)

/-- Sanitized partial state; a `none` section was not present in the
output object. -/
structure SanState where
  org : Option SanOrg
  roles : Option (List String)
  useCases : Option (List SanUseCase)

/-- One scalar field of the sanitizer:
`o[k] ? String(o[k]) : undefined`. -/
def strField (o : JsVal) (k : String) : Except String (Option String) := do
  let v ← jsGet o k
  pure (if jsTruthy v then some (jsToString v) else none)

/-- The five accepted risk literals. -/
def riskLits : List String := ["minimal", "limited", "high", "prohibited", "unknown"]

/-- The synthesized fallback id `uc-<timestamp>-<index>`. -/
def fallbackId (now idx : Nat) : String :=
  "uc-" ++ toString now ++ "-" ++ toString idx

/-- Sanitize one element of `input.useCases`
(the arrow function of the `map` at chat.ts lines 41-61).
Field accesses happen in source order; the first access (`u.id`)
throws when the element is `null` or `undefined`. -/
def sanitizeUseCase (now idx : Nat) (u : JsVal) : Except String SanUseCase := do
  let idV ← jsGet u "id"
  let nameV ← strField u "name"
  let descV ← strField u "description"
  let procV ← strField u "process"
  let inScopeV ← jsGet u "inScope"
  let riskV ← jsGet u "risk"
  let modelV ← strField u "model"
  let dataV ← jsGet u "data"
  let subjV ← jsGet u "subjects"
  let ownerV ← strField u "owner"
  let jurV ← jsGet u "jurisdictions"
  pure
    { id := if jsTruthy idV then idV else JsVal.str (fallbackId now idx)
      name := nameV
      description := descV
      process := procV
      inScope := match inScopeV with | .bool b => some b | _ => none
      risk := match riskV with
        | .str s => if riskLits.contains s then some s else none
        | _ => none
      model := modelV
      data := match dataV with | .arr xs => some (filterStrings xs) | _ => none
      subjects := match subjV with | .arr xs => some (filterStrings xs) | _ => none
      owner := ownerV
      jurisdictions := match jurV with | .arr xs => some (filterStrings xs) | _ => none }

/-- `input.useCases.map(...)` carrying the element index. -/
def sanitizeUseCases (now : Nat) : Nat → List JsVal → Except String (List SanUseCase)
  | _, [] => .ok []
  | idx, u :: us => do
    let r ← sanitizeUseCase now idx u
    let rs ← sanitizeUseCases now (idx + 1) us
    pure (r :: rs)

/-- The `org` section of the sanitizer (chat.ts lines 27-34):
entered only when `input.org` is truthy and object-typed. -/
def sanitizeOrgStep (orgV : JsVal) : Except String (Option SanOrg) :=
  if jsTruthy orgV && typeofIsObject orgV then do
    let n ← strField orgV "name"
    let c ← strField orgV "country"
    let i ← strField orgV "industry"
    let s ← strField orgV "size"
    pure (some (SanOrg.mk n c i s))
  else pure (none : Option SanOrg)

/-- The `roles` section of the sanitizer (chat.ts lines 36-38). -/
def sanitizeRolesStep (rolesV : JsVal) : Option (List String) :=
  match rolesV with
  | .arr xs => some (filterStrings xs)
  | _ => none

/-- The `useCases` section of the sanitizer (chat.ts lines 40-62). -/
def sanitizeUCStep (now : Nat) (ucV : JsVal) : Except String (Option (List SanUseCase)) :=
  match ucV with
  | .arr xs => do
    let l ← sanitizeUseCases now 0 xs
    pure (some l)
  | _ => pure (none : Option (List SanUseCase))

/-- `sanitizeStateUpdates` (chat.ts lines 22-65).  Returns `Except`:
an `error` models an uncaught JavaScript exception, `ok none` models
the `undefined` early return for non-object input.  The three sections
run in source order. -/
def sanitizeStateUpdates (now : Nat) (input : JsVal) : Except String (Option SanState) :=
  if !(jsTruthy input && typeofIsObject input) then .ok none
  else do
    let orgV ← jsGet input "org"
    let org ← sanitizeOrgStep orgV
    let rolesV ← jsGet input "roles"
    let ucV ← jsGet input "useCases"
    let useCases ← sanitizeUCStep now ucV
    pure (some (SanState.mk org (sanitizeRolesStep rolesV) useCases))

/-! ## Typed client state and the merger (`mergeState` in the page) -/

/-- The `org` record of `AgentState`; fields independently optional. -/
structure OrgInfo where
  name : Option String
  country : Option String
  industry : Option String
  size : Option String
deriving DecidableEq, Repr

/-- A use case entry of the client `AgentState`. -/
structure UseCase where
  id : String
  name : Option String
  description : Option String
  process : Option String
  inScope : Option Bool
  risk : Option String
  model : Option String
  data : Option (List String)
  subjects : Option (List String)
  owner : Option String
  jurisdictions : Option (List String)
deriving DecidableEq, Repr

/-- The client session state (also the shape of a partial update:
every top-level section is optional). -/
structure AgentState where
  org : Option OrgInfo
  roles : Option (List String)
  useCases : Option (List UseCase)
deriving DecidableEq, Repr

/-- JavaScript object spread on one optional field: the right side wins
when its key is present. -/
def ovr {α : Type} (a b : Option α) : Option α :=
  match b with
  | some v => some v
  | none => a

/-- Spread-merge of two `org` records
(`\x7b ...prev.org, ...update.org \x7d`). -/
def mergeOrg (a b : OrgInfo) : OrgInfo :=
  { name := ovr a.name b.name
    country := ovr a.country b.country
    industry := ovr a.industry b.industry
    size := ovr a.size b.size }

/-- The all-absent `org` record (`prev.org || \x7b\x7d`). -/
def blankOrg : OrgInfo := ⟨none, none, none, none⟩

/-- Spread-merge of two use-case records
(`\x7b ...byId.get(u.id), ...u \x7d`); the incoming record always
carries its `id`. -/
def mergeUC (a b : UseCase) : UseCase :=
  { id := b.id
    name := ovr a.name b.name
    description := ovr a.description b.description
    process := ovr a.process b.process
    inScope := ovr a.inScope b.inScope
    risk := ovr a.risk b.risk
    model := ovr a.model b.model
    data := ovr a.data b.data
    subjects := ovr a.subjects b.subjects
    owner := ovr a.owner b.owner
    jurisdictions := ovr a.jurisdictions b.jurisdictions }

/-- `Map.prototype.set` on an insertion-ordered map: an existing key
keeps its position and gets the new value, a new key is appended. -/
def mapSet (m : List (String × UseCase)) (k : String) (v : UseCase) :
    List (String × UseCase) :=
  if m.any (fun p => p.1 == k) then
    m.map (fun p => if p.1 == k then (k, v) else p)
  else m ++ [(k, v)]

/-- `Map.prototype.get`. -/
def mapGet (m : List (String × UseCase)) (k : String) : Option UseCase :=
  (m.find? (fun p => p.1 == k)).map (fun p => p.2)

/-- First loop of the merger: `for (const u of existing) byId.set(u.id, u)`. -/
def insertExisting (m : List (String × UseCase)) (u : UseCase) :
    List (String × UseCase) :=
  mapSet m u.id u

/-- Second loop: `byId.set(u.id, spread(byId.get(u.id) || empty, u))`. -/
def insertIncoming (m : List (String × UseCase)) (u : UseCase) :
    List (String × UseCase) :=
  mapSet m u.id
    (match mapGet m u.id with
      | some e => mergeUC e u
      | none => u)

/-- The use-case merge of `mergeState`: build the keyed map from the
existing entries, fold the incoming ones in, and read the values back
in insertion order (`Array.from(byId.values())`). -/
def mergeUseCases (existing incoming : List UseCase) : List UseCase :=
  ((incoming.foldl insertIncoming (existing.foldl insertExisting [])).map
    (fun p => p.2))

/-- `mergeState` (the client page, lines 61-80).  `none` models the
`if (!update) return` no-op. -/
def mergeState (prev : AgentState) (update : Option AgentState) : AgentState :=
  match update with
  | none => prev
  | some upd =>
    { org := match upd.org with
        | some o => some (mergeOrg (prev.org.getD blankOrg) o)
        | none => prev.org
      roles := match upd.roles with
        | some rs => some rs
        | none => prev.roles
      useCases := match upd.useCases with
        | some inc => some (mergeUseCases (prev.useCases.getD []) inc)
        | none => prev.useCases }

/-- Wire form of a sanitized org record after the JSON round trip
(undefined-valued keys dropped). -/
def sanOrgToOrg (o : SanOrg) : OrgInfo :=
  ⟨o.name, o.country, o.industry, o.size⟩

/-- Wire form of a sanitized use case with a string id. -/
def sanToUseCase (u : SanUseCase) : Option UseCase :=
  match u.id with
  | .str s => some ⟨s, u.name, u.description, u.process, u.inScope, u.risk,
      u.model, u.data, u.subjects, u.owner, u.jurisdictions⟩
  | _ => none

/-- Wire form of a sanitized partial state as received by the client
merger (ids that are not strings do not fit the client type and are
dropped; the concrete instances used below all have string ids). -/
def sanToUpdate (st : SanState) : AgentState :=
  { org := st.org.map sanOrgToOrg
    roles := st.roles
    useCases := st.useCases.map (fun l => l.filterMap sanToUseCase) }

/-- Keys of the insertion-ordered map, in order. -/
def mapKeys (m : List (String × UseCase)) : List String :=
  m.map (fun p => p.1)

/-- Every stored value carries its key as its id (an invariant of the
maps built by the merger). -/
def mapConsistent (m : List (String × UseCase)) : Prop :=
  ∀ p ∈ m, (p.2).id = p.1

/-- Iterated spread of a run of same-id incoming records onto an
optional existing entry. -/
def chainAt (o : Option UseCase) (us : List UseCase) : Option UseCase :=
  match us with
  | [] => o
  | u :: rest =>
    match o with
    | some e => some (rest.foldl mergeUC (mergeUC e u))
    | none => some (rest.foldl mergeUC u)

/-- The ids of the use cases of a state. -/
def useCaseIds (s : AgentState) : List String :=
  (s.useCases.getD []).map UseCase.id

/-! ## The response extractor (chat.ts lines 226-273) -/

/-- The backtick character. -/
def btChar : Char := Char.ofNat 96

/-- Left brace / right brace characters. -/
def lbrace : Char := Char.ofNat 123

def rbrace : Char := Char.ofNat 125

/-- The regex `\s` class (ASCII part). -/
def jsWs (c : Char) : Bool :=
  c == ' ' || c == '\t' || c == '\n' || c == '\r' ||
  c == Char.ofNat 11 || c == Char.ofNat 12

/-- Whether the text starts with three backticks. -/
def startsFence : List Char → Bool
  | c1 :: c2 :: c3 :: _ => c1 == btChar && c2 == btChar && c3 == btChar
  | _ => false

/-- Whether the text starts with `json` case-insensitively. -/
def startsJsonWord : List Char → Bool
  | c1 :: c2 :: c3 :: c4 :: _ =>
    (c1 == 'j' || c1 == 'J') && (c2 == 's' || c2 == 'S') &&
    (c3 == 'o' || c3 == 'O') && (c4 == 'n' || c4 == 'N')
  | _ => false

/-- Whether the text starts with a tagged fence opener (three backticks
then `json`, case-insensitively, as in the `/i` regexes). -/
def startsJsonTag (s : List Char) : Bool :=
  startsFence s && startsJsonWord (s.drop 3)

/-- Split at the first closing triple backtick: `some (before, after)`
where `after` is the text past those three backticks. -/
def splitAtClose : List Char → Option (List Char × List Char)
  | [] => none
  | c :: rest =>
    if startsFence (c :: rest) then some ([], rest.drop 2)
    else
      match splitAtClose rest with
      | some (b, a) => some (c :: b, a)
      | none => none

/-- The first match of the tagged-fence regex: at the first position
opening a tagged fence that also has a later closing fence, the capture
is the enclosed text with leading whitespace dropped (the greedy
whitespace run of the pattern). -/
def findJsonFence : List Char → Option (List Char)
  | [] => none
  | c :: rest =>
    if startsJsonTag (c :: rest) then
      match splitAtClose ((c :: rest).drop 7) with
      | some (b, _) => some (b.dropWhile jsWs)
      | none => findJsonFence rest
    else findJsonFence rest

/-- Fuelled global removal of tagged fenced blocks (the first
`replace`); fuel is always at least the text length. -/
def stripJF : Nat → List Char → List Char
  | 0, s => s
  | _ + 1, [] => []
  | fuel + 1, c :: rest =>
    if startsJsonTag (c :: rest) then
      match splitAtClose ((c :: rest).drop 7) with
      | some (_, a) => stripJF fuel a
      | none => c :: stripJF fuel rest
    else c :: stripJF fuel rest

/-- Remove every tagged fenced block, left to right. -/
def stripJsonFences (s : List Char) : List Char := stripJF s.length s

/-- Fuelled global removal of any remaining fenced blocks (the second
`replace`). -/
def stripAF : Nat → List Char → List Char
  | 0, s => s
  | _ + 1, [] => []
  | fuel + 1, c :: rest =>
    if startsFence (c :: rest) then
      match splitAtClose ((c :: rest).drop 3) with
      | some (_, a) => stripAF fuel a
      | none => c :: stripAF fuel rest
    else c :: stripAF fuel rest

/-- Remove every fenced block, left to right. -/
def stripAllFences (s : List Char) : List Char := stripAF s.length s

/-- `String.prototype.trim`. -/
def jsTrim (s : List Char) : List Char :=
  ((s.dropWhile jsWs).reverse.dropWhile jsWs).reverse

/-- The brace fallback regex: greedy span from the first left brace to
the last right brace after it, if any. -/
def braceCandidate (s : List Char) : Option (List Char) :=
  match s.dropWhile (fun c => !(c == lbrace)) with
  | [] => none
  | c :: t =>
    let kept := (t.reverse.dropWhile (fun x => !(x == rbrace))).reverse
    if kept.isEmpty then none else some (c :: kept)

/-- The structured-text candidate: the tagged fence wins, the brace
span is the fallback. -/
def jsonCandidate (reply : List Char) : Option (List Char) :=
  match findJsonFence reply with
  | some t => some t
  | none => braceCandidate reply

/-- The narrative: both replaces then trim. -/
def cleanReply (reply : List Char) : List Char :=
  jsTrim (stripAllFences (stripJsonFences reply))

/-! ## The post-response pipeline of the handler (chat.ts 226-288) -/

/-- The response bundle assembled from the model reply. -/
structure TurnBundle where
  reply : List Char
  suggestions : Option (List String)
  guidance : Option (List String)
  questions : Option (List String)
  examples : Option (List String)
  roadmap : Option (List JsVal)
  stateUpdates : Option SanState
  useCases : Option (List SanUseCase)

/-- `Array.isArray(v) ? v.filter(string).slice(0, n) : undefined`. -/
def pickStrings (v : JsVal) (n : Nat) : Option (List String) :=
  match v with
  | .arr xs => some ((filterStrings xs).take n)
  | _ => none

/-- The extraction-and-parse step of the handler: locate the candidate,
parse it (the `parse` parameter models `JSON.parse`, `none` = throw),
pull the list fields, sanitize `stateUpdates` (a sanitizer throw is
absorbed by the surrounding catch, leaving `stateUpdates` unset), and
clean the reply. -/
def processReply (parse : List Char → Option JsVal) (now : Nat)
    (reply : List Char) : TurnBundle :=
  let cand := jsonCandidate reply
  let parsed : Option JsVal :=
    match cand with
    | some t => if t.isEmpty then none else parse t
    | none => none
  let su : Option SanState :=
    match parsed with
    | some obj =>
      let sv := jsPropSafe obj "stateUpdates"
      if jsTruthy sv && typeofIsObject sv then
        match sanitizeStateUpdates now sv with
        | .ok r => r
        | .error _ => none
      else none
    | none => none
  { reply := cleanReply reply
    suggestions := parsed.bind (fun o => pickStrings (jsPropSafe o "suggestions") 4)
    guidance := parsed.bind (fun o => pickStrings (jsPropSafe o "guidance") 6)
    questions := parsed.bind (fun o => pickStrings (jsPropSafe o "questions") 3)
    examples := parsed.bind (fun o => pickStrings (jsPropSafe o "examples") 3)
    roadmap := parsed.bind (fun o =>
      match jsPropSafe o "roadmap" with
      | .arr xs => some xs
      | _ => none)
    stateUpdates := su
    useCases := su.bind (fun s => s.useCases) }

/-! ## The pre-network part of the handler (chat.ts 67-86, 172-185) -/

/-- Outcome of the handler before (or instead of) any network activity:
either an early error response, or the point where the upstream model
is contacted. -/
inductive PreOutcome where
  | reject (status : Nat) (msg : String)
  | callModel (modelName : String) (userText : String) (stateEcho : JsVal)

/-- The default model name. -/
def defaultModel : String := "gpt-4o-mini"

/-- `String.prototype.trim` on a `String`. -/
def jsTrimStr (s : String) : String := (jsTrim s.toList).asString

/-- `process.env.OPENAI_MODEL || "gpt-4o-mini"` (an empty env value is
falsy). -/
def envFallback : Option String → String
  | some e => if e == "" then defaultModel else e
  | none => defaultModel

/-- `(typeof model === "string" && model.trim()) || env || default`;
note the selected name is the trimmed string. -/
def pickModel (modelV : JsVal) (envModel : Option String) : String :=
  match modelV with
  | .str s => if jsTrimStr s == "" then envFallback envModel else jsTrimStr s
  | _ => envFallback envModel

/-- The handler up to the upstream `fetch`: method check, body
destructuring (`req.body || \x7b\x7d`), the input validation
`!input || typeof input !== "string"`, the API-key check, and model
selection.  `apiKey` is the raw env value (empty = unset). -/
def handlerPre (method : String) (body : JsVal) (apiKey : String)
    (envModel : Option String) : PreOutcome :=
  if !(method == "POST") then .reject 405 "Method Not Allowed"
  else
    let b := if jsTruthy body then body else .obj []
    let inputV := jsPropSafe b "input"
    let modelV := jsPropSafe b "model"
    let stateV := jsPropSafe b "state"
    if !(jsTruthy inputV && isStringV inputV) then
      .reject 400 "Missing \"input\" string in body"
    else if apiKey == "" then
      .reject 500 "OPENAI_API_KEY is not set on the server"
    else
      .callModel (pickModel modelV envModel) (strOf inputV) stateV

/-! ## Text fragments used to state the extractor properties -/

/-- Backtick-freeness of a text fragment. -/
def noBt (s : List Char) : Bool := s.all (fun ch => !(ch == btChar))

/-- Nonempty and not starting with the letter j (a fragment that cannot
continue a fence into a tagged opener). -/
def notJsonStart : List Char → Bool
  | [] => false
  | c :: _ => !(c == 'j' || c == 'J')

/-- A plain fence (three backticks). -/
def fence3 : List Char := [btChar, btChar, btChar]

/-- A tagged fence opener. -/
def fenceTag : List Char := [btChar, btChar, btChar, 'j', 's', 'o', 'n']

/-! ## Concrete example records from the specification text -/

/-- The first example record of the field-union property. -/
def exCaseA : UseCase :=
  ⟨"uc-1", some "A", none, none, none, none, none, none, none, none, none⟩

/-- The second example record of the field-union property. -/
def exCaseB : UseCase :=
  ⟨"uc-1", none, none, none, none, some "high", none, none, none, none, none⟩

/-- The merged example record. -/
def exMerged : UseCase :=
  ⟨"uc-1", some "A", none, none, none, some "high", none, none, none, none, none⟩

/-- An empty session state as created at session start. -/
def exInit : AgentState := ⟨none, some [], some []⟩

/-- The second example update as raw model output reaching the
sanitizer. -/
def exRaw : JsVal :=
  JsVal.obj [("useCases", JsVal.arr
    [JsVal.obj [("id", JsVal.str "uc-1"), ("risk", JsVal.str "high")]])]

/-! ## Lemmas: the spread operation and merged records -/

theorem ovr_none {α : Type} (a : Option α) : ovr a none = a := rfl

theorem ovr_some {α : Type} (a : Option α) (v : α) : ovr a (some v) = some v := rfl

theorem ovr_assoc {α : Type} (a b c : Option α) :
    ovr (ovr a b) c = ovr a (ovr b c) := by
  cases c <;> cases b <;> rfl

theorem ovr_self {α : Type} (a : Option α) : ovr a a = a := by
  cases a <;> rfl

theorem mergeUC_assoc (a b c : UseCase) :
    mergeUC (mergeUC a b) c = mergeUC a (mergeUC b c) := by
  simp [mergeUC, ovr_assoc]

theorem mergeUC_self (a : UseCase) : mergeUC a a = a := by
  cases a
  simp [mergeUC, ovr_self]

theorem foldl_mergeUC_assoc (us : List UseCase) (x y : UseCase) :
    us.foldl mergeUC (mergeUC x y) = mergeUC x (us.foldl mergeUC y) := by
  induction us generalizing y with
  | nil => rfl
  | cons u rest ih => simp only [List.foldl_cons, mergeUC_assoc, ih]

theorem chainAt_some (w : UseCase) (us : List UseCase) :
    chainAt (some w) us = some (us.foldl mergeUC w) := by
  cases us <;> rfl

theorem chainAt_idem (o : Option UseCase) (us : List UseCase) :
    chainAt (chainAt o us) us = chainAt o us := by
  cases us with
  | nil => rfl
  | cons u rest =>
    cases o with
    | some e =>
      simp only [chainAt, chainAt_some, List.foldl_cons, foldl_mergeUC_assoc,
        mergeUC_assoc, mergeUC_self]
    | none =>
      simp only [chainAt, chainAt_some, List.foldl_cons, foldl_mergeUC_assoc,
        mergeUC_assoc, mergeUC_self]

/-! ## Lemmas: the insertion-ordered map of the merger -/

theorem any_key_iff (m : List (String × UseCase)) (k : String) :
    (m.any (fun p => p.1 == k)) = true ↔ k ∈ mapKeys m := by
  simp [mapKeys, List.any_eq_true, beq_iff_eq, List.mem_map]

theorem mapSet_of_mem (m : List (String × UseCase)) (k : String) (v : UseCase)
    (h : k ∈ mapKeys m) :
    mapSet m k v = m.map (fun p => if p.1 == k then (k, v) else p) := by
  unfold mapSet
  rw [if_pos ((any_key_iff m k).2 h)]

theorem mapSet_of_not_mem (m : List (String × UseCase)) (k : String) (v : UseCase)
    (h : ¬ k ∈ mapKeys m) :
    mapSet m k v = m ++ [(k, v)] := by
  unfold mapSet
  rw [if_neg (fun hc => h ((any_key_iff m k).1 hc))]

theorem mapKeys_append (m n : List (String × UseCase)) :
    mapKeys (m ++ n) = mapKeys m ++ mapKeys n := by
  simp [mapKeys]

theorem mapKeys_mapSet_mem (m : List (String × UseCase)) (k : String) (v : UseCase)
    (h : k ∈ mapKeys m) : mapKeys (mapSet m k v) = mapKeys m := by
  rw [mapSet_of_mem m k v h]
  unfold mapKeys
  rw [List.map_map]
  apply List.map_congr_left
  intro p _
  by_cases hpk : p.1 = k
  · simp [hpk]
  · simp [hpk]

theorem mapKeys_mapSet_not_mem (m : List (String × UseCase)) (k : String) (v : UseCase)
    (h : ¬ k ∈ mapKeys m) : mapKeys (mapSet m k v) = mapKeys m ++ [k] := by
  rw [mapSet_of_not_mem m k v h, mapKeys_append]
  rfl

theorem nodup_mapKeys_mapSet (m : List (String × UseCase)) (k : String) (v : UseCase)
    (h : (mapKeys m).Nodup) : (mapKeys (mapSet m k v)).Nodup := by
  by_cases hm : k ∈ mapKeys m
  · rw [mapKeys_mapSet_mem m k v hm]; exact h
  · rw [mapKeys_mapSet_not_mem m k v hm]
    simp [List.nodup_append, h, hm]

theorem mapConsistent_mapSet (m : List (String × UseCase)) (k : String) (v : UseCase)
    (hc : mapConsistent m) (hv : v.id = k) : mapConsistent (mapSet m k v) := by
  by_cases hm : k ∈ mapKeys m
  · rw [mapSet_of_mem m k v hm]
    intro p hp
    rw [List.mem_map] at hp
    obtain ⟨q, hq, rfl⟩ := hp
    by_cases hqk : q.1 = k
    · simp [hqk, hv]
    · simp [hqk]
      exact hc q hq
  · rw [mapSet_of_not_mem m k v hm]
    intro p hp
    rw [List.mem_append] at hp
    cases hp with
    | inl h1 => exact hc p h1
    | inr h2 =>
      simp at h2
      subst h2
      exact hv

theorem mapGet_cons_self (k : String) (v : UseCase) (t : List (String × UseCase)) :
    mapGet ((k, v) :: t) k = some v := by
  unfold mapGet
  rw [List.find?_cons_of_pos _ (by simp)]
  rfl

theorem mapGet_cons_ne (q k : String) (v : UseCase) (t : List (String × UseCase))
    (h : ¬ q = k) : mapGet ((q, v) :: t) k = mapGet t k := by
  unfold mapGet
  rw [List.find?_cons_of_neg _ (by simp [h])]

theorem mapGet_eq_none (m : List (String × UseCase)) (k : String)
    (h : ¬ k ∈ mapKeys m) : mapGet m k = none := by
  unfold mapGet
  have : m.find? (fun p => p.1 == k) = none := by
    rw [List.find?_eq_none]
    intro p hp
    simp only [beq_iff_eq]
    intro hpk
    exact h ((any_key_iff m k).1 (List.any_eq_true.2 ⟨p, hp, by simp [hpk]⟩))
  rw [this]
  rfl

theorem mapGet_map_replace (m : List (String × UseCase)) (k : String) (v : UseCase)
    (hm : k ∈ mapKeys m) :
    mapGet (m.map (fun p => if p.1 == k then (k, v) else p)) k = some v := by
  induction m with
  | nil => simp [mapKeys] at hm
  | cons p t ih =>
    obtain ⟨q, w⟩ := p
    simp only [List.map_cons]
    by_cases hq : q = k
    · subst hq
      rw [if_pos (by simp : ((q, w).1 == q) = true)]
      exact mapGet_cons_self q v _
    · rw [if_neg (by simp [hq] : ¬ ((q, w).1 == k) = true)]
      rw [mapGet_cons_ne q k w _ hq]
      have hm2 : k ∈ mapKeys t := by
        simp [mapKeys] at hm
        rcases hm with h1 | h2
        · exact absurd h1.symm hq
        · simpa [mapKeys] using h2
      exact ih hm2

theorem mapGet_append_of_none (m n : List (String × UseCase)) (k : String)
    (h : mapGet m k = none) : mapGet (m ++ n) k = mapGet n k := by
  induction m with
  | nil => rfl
  | cons p t ih =>
    obtain ⟨q, w⟩ := p
    by_cases hq : q = k
    · subst hq
      rw [mapGet_cons_self] at h
      cases h
    · rw [List.cons_append, mapGet_cons_ne q k w _ hq]
      rw [mapGet_cons_ne q k w t hq] at h
      exact ih h

theorem mapGet_append_of_some (m n : List (String × UseCase)) (k : String)
    (x : UseCase) (h : mapGet m k = some x) : mapGet (m ++ n) k = some x := by
  induction m with
  | nil => cases h
  | cons p t ih =>
    obtain ⟨q, w⟩ := p
    by_cases hq : q = k
    · subst hq
      rw [mapGet_cons_self] at h
      rw [List.cons_append, mapGet_cons_self]
      exact h
    · rw [List.cons_append, mapGet_cons_ne q k w _ hq]
      rw [mapGet_cons_ne q k w t hq] at h
      exact ih h

theorem mapGet_mapSet_self (m : List (String × UseCase)) (k : String) (v : UseCase) :
    mapGet (mapSet m k v) k = some v := by
  by_cases hm : k ∈ mapKeys m
  · rw [mapSet_of_mem m k v hm]
    exact mapGet_map_replace m k v hm
  · rw [mapSet_of_not_mem m k v hm]
    rw [mapGet_append_of_none m [(k, v)] k (mapGet_eq_none m k hm)]
    exact mapGet_cons_self k v []

theorem mapGet_mapSet_ne (m : List (String × UseCase)) (k q : String) (v : UseCase)
    (h : ¬ k = q) : mapGet (mapSet m k v) q = mapGet m q := by
  by_cases hm : k ∈ mapKeys m
  · rw [mapSet_of_mem m k v hm]
    clear hm
    induction m with
    | nil => rfl
    | cons p t ih =>
      obtain ⟨a, w⟩ := p
      simp only [List.map_cons]
      by_cases hak : a = k
      · subst hak
        rw [if_pos (by simp : ((a, w).1 == a) = true)]
        rw [mapGet_cons_ne a q v _ h, mapGet_cons_ne a q w t h]
        exact ih
      · rw [if_neg (by simp [hak] : ¬ ((a, w).1 == k) = true)]
        by_cases haq : a = q
        · subst haq
          rw [mapGet_cons_self, mapGet_cons_self]
        · rw [mapGet_cons_ne a q w _ haq, mapGet_cons_ne a q w t haq]
          exact ih
  · rw [mapSet_of_not_mem m k v hm]
    cases hg : mapGet m q with
    | some x => exact mapGet_append_of_some m [(k, v)] q x hg
    | none =>
      rw [mapGet_append_of_none m [(k, v)] q hg]
      rw [mapGet_cons_ne k q v [] h]
      rfl

/-! ## Lemmas: the two loops of the use-case merge -/

theorem foldl_insertExisting_append (l : List UseCase) (acc : List (String × UseCase))
    (hacc : ∀ v ∈ l, ¬ v.id ∈ mapKeys acc) (hn : (l.map UseCase.id).Nodup) :
    l.foldl insertExisting acc = acc ++ l.map (fun v => (v.id, v)) := by
  induction l generalizing acc with
  | nil => simp
  | cons v rest ih =>
    simp only [List.foldl_cons, List.map_cons]
    have hstep : insertExisting acc v = acc ++ [(v.id, v)] := by
      unfold insertExisting
      exact mapSet_of_not_mem acc v.id v (hacc v (by simp))
    rw [hstep]
    rw [List.map_cons, List.nodup_cons] at hn
    rw [ih (acc ++ [(v.id, v)]) ?ha hn.2]
    · simp
    case ha =>
      intro u hu
      rw [mapKeys_append]
      simp only [List.mem_append]
      rintro (h1 | h2)
      · exact hacc u (by simp [hu]) h1
      · simp [mapKeys] at h2
        exact hn.1 (h2 ▸ List.mem_map_of_mem UseCase.id hu)

theorem rebuild_eq (m : List (String × UseCase)) (hn : (mapKeys m).Nodup)
    (hc : mapConsistent m) :
    (m.map (fun p => p.2)).foldl insertExisting [] = m := by
  have hids : (m.map (fun p => p.2)).map UseCase.id = mapKeys m := by
    rw [List.map_map]
    apply List.map_congr_left
    intro p hp
    exact hc p hp
  rw [foldl_insertExisting_append _ [] (by simp [mapKeys]) (by rw [hids]; exact hn)]
  rw [List.nil_append, List.map_map]
  have : ∀ p ∈ m, ((fun v => (v.id, v)) ∘ fun p => p.2) p = id p := by
    intro p hp
    have := hc p hp
    simp only [Function.comp_apply, id_eq]
    rw [this]
  rw [List.map_congr_left this, List.map_id]

theorem mapKeys_insertIncoming_mem (m : List (String × UseCase)) (u : UseCase)
    (h : u.id ∈ mapKeys m) : mapKeys (insertIncoming m u) = mapKeys m := by
  unfold insertIncoming
  exact mapKeys_mapSet_mem m u.id _ h

theorem mem_mapKeys_insertIncoming (m : List (String × UseCase)) (u : UseCase) :
    u.id ∈ mapKeys (insertIncoming m u) := by
  unfold insertIncoming
  by_cases h : u.id ∈ mapKeys m
  · rw [mapKeys_mapSet_mem _ _ _ h]
    exact h
  · rw [mapKeys_mapSet_not_mem _ _ _ h]
    simp

theorem mem_mapKeys_insertIncoming_mono (m : List (String × UseCase)) (u : UseCase)
    (k : String) (h : k ∈ mapKeys m) : k ∈ mapKeys (insertIncoming m u) := by
  unfold insertIncoming
  by_cases h2 : u.id ∈ mapKeys m
  · rw [mapKeys_mapSet_mem _ _ _ h2]
    exact h
  · rw [mapKeys_mapSet_not_mem _ _ _ h2]
    simp [h]

theorem mem_foldl_preserve (inc : List UseCase) (m : List (String × UseCase))
    (k : String) (h : k ∈ mapKeys m) : k ∈ mapKeys (inc.foldl insertIncoming m) := by
  induction inc generalizing m with
  | nil => exact h
  | cons x rest ih => exact ih _ (mem_mapKeys_insertIncoming_mono m x k h)

theorem mem_mapKeys_foldl (inc : List UseCase) (m : List (String × UseCase))
    (u : UseCase) (hu : u ∈ inc) :
    u.id ∈ mapKeys (inc.foldl insertIncoming m) := by
  induction inc generalizing m with
  | nil => cases hu
  | cons x rest ih =>
    simp only [List.foldl_cons]
    rcases List.mem_cons.1 hu with rfl | h
    · exact mem_foldl_preserve rest _ _ (mem_mapKeys_insertIncoming m u)
    · exact ih _ h

theorem mapKeys_foldl_stable (inc : List UseCase) (m : List (String × UseCase))
    (h : ∀ u ∈ inc, u.id ∈ mapKeys m) :
    mapKeys (inc.foldl insertIncoming m) = mapKeys m := by
  induction inc generalizing m with
  | nil => rfl
  | cons x rest ih =>
    simp only [List.foldl_cons]
    have hx : mapKeys (insertIncoming m x) = mapKeys m :=
      mapKeys_insertIncoming_mem m x (h x (by simp))
    rw [ih _ ?h2, hx]
    case h2 =>
      intro u hu
      rw [hx]
      exact h u (by simp [hu])

theorem nodup_foldl_insertIncoming (inc : List UseCase) (m : List (String × UseCase))
    (h : (mapKeys m).Nodup) : (mapKeys (inc.foldl insertIncoming m)).Nodup := by
  induction inc generalizing m with
  | nil => exact h
  | cons x rest ih =>
    simp only [List.foldl_cons]
    exact ih _ (nodup_mapKeys_mapSet m x.id _ h)

theorem mapConsistent_insertIncoming (m : List (String × UseCase)) (u : UseCase)
    (hc : mapConsistent m) : mapConsistent (insertIncoming m u) := by
  unfold insertIncoming
  apply mapConsistent_mapSet _ _ _ hc
  cases mapGet m u.id <;> rfl

theorem consistent_foldl_insertIncoming (inc : List UseCase)
    (m : List (String × UseCase)) (hc : mapConsistent m) :
    mapConsistent (inc.foldl insertIncoming m) := by
  induction inc generalizing m with
  | nil => exact hc
  | cons x rest ih =>
    simp only [List.foldl_cons]
    exact ih _ (mapConsistent_insertIncoming m x hc)

theorem nodup_foldl_insertExisting (l : List UseCase) (m : List (String × UseCase))
    (h : (mapKeys m).Nodup) : (mapKeys (l.foldl insertExisting m)).Nodup := by
  induction l generalizing m with
  | nil => exact h
  | cons x rest ih =>
    simp only [List.foldl_cons]
    exact ih _ (nodup_mapKeys_mapSet m x.id _ h)

theorem consistent_foldl_insertExisting (l : List UseCase)
    (m : List (String × UseCase)) (hc : mapConsistent m) :
    mapConsistent (l.foldl insertExisting m) := by
  induction l generalizing m with
  | nil => exact hc
  | cons x rest ih =>
    simp only [List.foldl_cons]
    exact ih _ (mapConsistent_mapSet m x.id x hc rfl)

theorem mapGet_foldl_insertIncoming (inc : List UseCase)
    (m : List (String × UseCase)) (k : String) :
    mapGet (inc.foldl insertIncoming m) k
      = chainAt (mapGet m k) (inc.filter (fun x => x.id == k)) := by
  induction inc generalizing m with
  | nil => rfl
  | cons u rest ih =>
    simp only [List.foldl_cons, List.filter_cons]
    by_cases hk : u.id = k
    · rw [if_pos (by simp [hk])]
      rw [ih]
      have hg : mapGet (insertIncoming m u) k
          = some (match mapGet m k with | some e => mergeUC e u | none => u) := by
        unfold insertIncoming
        rw [hk]
        exact mapGet_mapSet_self m k _
      rw [hg, chainAt_some]
      cases hmk : mapGet m k with
      | some e => simp [chainAt]
      | none => simp [chainAt]
    · rw [if_neg (by simp [hk])]
      rw [ih]
      have hg : mapGet (insertIncoming m u) k = mapGet m k := by
        unfold insertIncoming
        exact mapGet_mapSet_ne m u.id k _ hk
      rw [hg]

theorem map_eq_of_keys_lookup (m1 m2 : List (String × UseCase))
    (hk : mapKeys m1 = mapKeys m2) (hn : (mapKeys m1).Nodup)
    (hl : ∀ k, mapGet m1 k = mapGet m2 k) : m1 = m2 := by
  induction m1 generalizing m2 with
  | nil =>
    cases m2 with
    | nil => rfl
    | cons p t => simp [mapKeys] at hk
  | cons p t ih =>
    obtain ⟨k, v⟩ := p
    cases m2 with
    | nil => simp [mapKeys] at hk
    | cons p2 t2 =>
      obtain ⟨k2, v2⟩ := p2
      simp only [mapKeys, List.map_cons, List.cons.injEq] at hk
      obtain ⟨hk1, hk2⟩ := hk
      subst hk1
      have hv : v = v2 := by
        have := hl k
        rw [mapGet_cons_self, mapGet_cons_self] at this
        exact Option.some.inj this
      subst hv
      rw [mapKeys, List.map_cons, List.nodup_cons] at hn
      congr 1
      apply ih _ hk2 hn.2
      intro q
      by_cases hq : q = k
      · subst hq
        rw [mapGet_eq_none t q hn.1]
        rw [mapGet_eq_none t2 q (by
          show ¬ q ∈ List.map (fun p => p.1) t2
          rw [← hk2]
          exact hn.1)]
      · have := hl q
        rwa [mapGet_cons_ne k q v t (fun hh => hq hh.symm),
          mapGet_cons_ne k q v t2 (fun hh => hq hh.symm)] at this

theorem values_filter (m : List (String × UseCase)) (k : String)
    (hn : (mapKeys m).Nodup) (hc : mapConsistent m) :
    (m.map (fun p => p.2)).filter (fun v => v.id == k) = (mapGet m k).toList := by
  induction m with
  | nil => rfl
  | cons p t ih =>
    obtain ⟨q, w⟩ := p
    have hw : w.id = q := hc (q, w) (by simp)
    rw [mapKeys, List.map_cons, List.nodup_cons] at hn
    have hct : mapConsistent t := fun p hp => hc p (by simp [hp])
    simp only [List.map_cons, List.filter_cons]
    by_cases hq : q = k
    · subst hq
      rw [if_pos (by simp [hw])]
      rw [mapGet_cons_self]
      rw [ih hn.2 hct, mapGet_eq_none t q hn.1]
      rfl
    · rw [if_neg (by simp [hw, hq])]
      rw [mapGet_cons_ne q k w t hq]
      exact ih hn.2 hct

theorem mapGet_pairList (l : List UseCase) (e : UseCase)
    (hn : (l.map UseCase.id).Nodup) (he : e ∈ l) :
    mapGet (l.map (fun v => (v.id, v))) e.id = some e := by
  induction l with
  | nil => cases he
  | cons v rest ih =>
    rw [List.map_cons, List.nodup_cons] at hn
    rcases List.mem_cons.1 he with rfl | h
    · exact mapGet_cons_self e.id e _
    · rw [List.map_cons, mapGet_cons_ne v.id e.id v _
        (fun hh => hn.1 (hh ▸ List.mem_map_of_mem UseCase.id h))]
      exact ih hn.2 h

theorem mapGet_build (l : List UseCase) (e : UseCase)
    (hn : (l.map UseCase.id).Nodup) (he : e ∈ l) :
    mapGet (l.foldl insertExisting []) e.id = some e := by
  rw [foldl_insertExisting_append l [] (by simp [mapKeys]) hn, List.nil_append]
  exact mapGet_pairList l e hn he

/-! ## Lemmas: the use-case merge and the full state merge -/

theorem nodup_ids_mergeUseCases (existing incoming : List UseCase) :
    ((mergeUseCases existing incoming).map UseCase.id).Nodup := by
  unfold mergeUseCases
  have hn0 : (mapKeys (existing.foldl insertExisting [])).Nodup :=
    nodup_foldl_insertExisting _ _ (by simp [mapKeys])
  have hc0 : mapConsistent (existing.foldl insertExisting []) :=
    consistent_foldl_insertExisting _ _ (by intro p hp; cases hp)
  have hnM := nodup_foldl_insertIncoming incoming _ hn0
  have hcM := consistent_foldl_insertIncoming incoming _ hc0
  have hids : ((incoming.foldl insertIncoming (existing.foldl insertExisting [])).map
      (fun p => p.2)).map UseCase.id
      = mapKeys (incoming.foldl insertIncoming (existing.foldl insertExisting [])) := by
    rw [List.map_map]
    exact List.map_congr_left (fun p hp => hcM p hp)
  rw [hids]
  exact hnM

theorem mergeUseCases_idem (existing incoming : List UseCase) :
    mergeUseCases (mergeUseCases existing incoming) incoming
      = mergeUseCases existing incoming := by
  unfold mergeUseCases
  have hn0 : (mapKeys (existing.foldl insertExisting [])).Nodup :=
    nodup_foldl_insertExisting _ _ (by simp [mapKeys])
  have hc0 : mapConsistent (existing.foldl insertExisting []) :=
    consistent_foldl_insertExisting _ _ (by intro p hp; cases hp)
  have hnM := nodup_foldl_insertIncoming incoming _ hn0
  have hcM := consistent_foldl_insertIncoming incoming _ hc0
  rw [rebuild_eq _ hnM hcM]
  congr 1
  apply map_eq_of_keys_lookup
  · apply mapKeys_foldl_stable
    intro u hu
    exact mem_mapKeys_foldl incoming _ u hu
  · exact nodup_foldl_insertIncoming _ _ hnM
  · intro k
    rw [mapGet_foldl_insertIncoming incoming _ k,
      mapGet_foldl_insertIncoming incoming (existing.foldl insertExisting []) k]
    exact chainAt_idem _ _

theorem mergeOrg_absorb (p o : OrgInfo) : mergeOrg (mergeOrg p o) o = mergeOrg p o := by
  cases p
  cases o
  simp [mergeOrg, ovr_assoc, ovr_self]

/-- Claim C7: merging the same update twice yields the same state
(including the use-case ordering) as merging it once. -/
theorem c7_merge_idempotent (s : AgentState) (u : Option AgentState) :
    mergeState (mergeState s u) u = mergeState s u := by
  cases u with
  | none => rfl
  | some upd =>
    obtain ⟨uo, ur, uc⟩ := upd
    cases uo <;> cases ur <;> cases uc <;>
      simp [mergeState, mergeUseCases_idem, mergeOrg_absorb]

/-- Claim C5: after a merge the use-case collection has no two entries
with the same id: any merge preserves id-uniqueness of the session
state, and a merge whose update carries a use-case section produces an
id-unique collection from any prior state whatsoever. -/
theorem c5_no_duplicate_ids :
    (∀ (prev : AgentState) (upd : Option AgentState),
        (useCaseIds prev).Nodup → (useCaseIds (mergeState prev upd)).Nodup) ∧
    (∀ (prev : AgentState) (u : AgentState) (inc : List UseCase),
        u.useCases = some inc → (useCaseIds (mergeState prev (some u))).Nodup) := by
  constructor
  · intro prev upd h
    cases upd with
    | none => exact h
    | some u =>
      obtain ⟨uo, ur, uc⟩ := u
      cases uc with
      | none => simpa [mergeState, useCaseIds] using h
      | some inc =>
        simp only [mergeState, useCaseIds, Option.getD_some]
        exact nodup_ids_mergeUseCases _ _
  · intro prev u inc h
    obtain ⟨uo, ur, uc⟩ := u
    simp only at h
    subst h
    simp only [mergeState, useCaseIds, Option.getD_some]
    exact nodup_ids_mergeUseCases _ _

/-- Witness for C5 at concrete inputs. -/
theorem c5_no_duplicate_ids_witness :
    (useCaseIds (mergeState ⟨none, none, some []⟩ none)).Nodup ∧
    (useCaseIds (mergeState ⟨none, none, none⟩
      (some ⟨none, none, some [⟨"uc-1", none, none, none, none, none, none, none,
        none, none, none⟩]⟩))).Nodup := by
  constructor
  · exact c5_no_duplicate_ids.1 ⟨none, none, some []⟩ none (by decide)
  · exact c5_no_duplicate_ids.2 ⟨none, none, none⟩
      ⟨none, none, some [⟨"uc-1", none, none, none, none, none, none, none,
        none, none, none⟩]⟩ _ rfl

/-- Claim C6: a merge whose update carries a roles section replaces the
prior roles wholesale; in particular Provider merged with Deployer
yields Deployer alone, not the union. -/
theorem c6_roles_replacement :
    (∀ (prev : AgentState) (upd : AgentState) (rs : List String),
        upd.roles = some rs → (mergeState prev (some upd)).roles = some rs) ∧
    ((mergeState ⟨none, some ["Provider"], none⟩
        (some ⟨none, some ["Deployer"], none⟩)).roles = some ["Deployer"]) ∧
    ¬ ((mergeState ⟨none, some ["Provider"], none⟩
        (some ⟨none, some ["Deployer"], none⟩)).roles = some ["Provider", "Deployer"]) := by
  refine ⟨?_, by decide, by decide⟩
  intro prev upd rs h
  obtain ⟨uo, ur, uc⟩ := upd
  simp only at h
  subst h
  simp [mergeState]

/-- Witness for C6 at concrete inputs. -/
theorem c6_roles_replacement_witness :
    (mergeState ⟨none, some ["Provider"], some []⟩
      (some ⟨none, some ["Deployer"], none⟩)).roles = some ["Deployer"] :=
  c6_roles_replacement.1 ⟨none, some ["Provider"], some []⟩
    ⟨none, some ["Deployer"], none⟩ ["Deployer"] rfl

/-- Claim C1: merging a use case onto an existing entry with the same id
yields a single entry for that id in which fields present in the
incoming partial record take the update values and absent fields retain
the prior values; in particular the spec example holds, also when the
second record is produced by the sanitizer (its output reaches the
merger through the JSON response, which drops undefined-valued keys). -/
theorem c1_field_level_union :
    (∀ (s : AgentState) (l us : List UseCase) (e u : UseCase) (upd : AgentState)
        (k : String),
      s.useCases = some l →
      (l.map UseCase.id).Nodup →
      e ∈ l → e.id = k →
      upd.useCases = some us →
      us.filter (fun x => x.id == k) = [u] →
      ∃ r, ((mergeState s (some upd)).useCases.getD []).filter
          (fun x => x.id == k) = [r] ∧
        r.id = k ∧
        (u.name = none → r.name = e.name) ∧
        (∀ v, u.name = some v → r.name = some v) ∧
        (u.description = none → r.description = e.description) ∧
        (∀ v, u.description = some v → r.description = some v) ∧
        (u.process = none → r.process = e.process) ∧
        (∀ v, u.process = some v → r.process = some v) ∧
        (u.inScope = none → r.inScope = e.inScope) ∧
        (∀ v, u.inScope = some v → r.inScope = some v) ∧
        (u.risk = none → r.risk = e.risk) ∧
        (∀ v, u.risk = some v → r.risk = some v) ∧
        (u.model = none → r.model = e.model) ∧
        (∀ v, u.model = some v → r.model = some v) ∧
        (u.data = none → r.data = e.data) ∧
        (∀ v, u.data = some v → r.data = some v) ∧
        (u.subjects = none → r.subjects = e.subjects) ∧
        (∀ v, u.subjects = some v → r.subjects = some v) ∧
        (u.owner = none → r.owner = e.owner) ∧
        (∀ v, u.owner = some v → r.owner = some v) ∧
        (u.jurisdictions = none → r.jurisdictions = e.jurisdictions) ∧
        (∀ v, u.jurisdictions = some v → r.jurisdictions = some v)) ∧
    (mergeState (mergeState exInit (some ⟨none, none, some [exCaseA]⟩))
        (some ⟨none, none, some [exCaseB]⟩)
      = ⟨none, some [], some [exMerged]⟩) ∧
    (∃ st, sanitizeStateUpdates 99 exRaw = Except.ok (some st) ∧
      mergeState (mergeState exInit (some ⟨none, none, some [exCaseA]⟩))
        (some (sanToUpdate st))
      = ⟨none, some [], some [exMerged]⟩) := by
  refine ⟨?_, by decide, ?_⟩
  · intro s l us e u upd k hs hn he hek hu hf
    obtain ⟨uo, ur, uc⟩ := upd
    simp only at hu
    subst hu
    have hres : (mergeState s (some ⟨uo, ur, some us⟩)).useCases
        = some (mergeUseCases l us) := by
      simp [mergeState, hs]
    have huid : u.id = k := by
      have hmem : u ∈ us.filter (fun x => x.id == k) := by
        rw [hf]
        exact List.mem_singleton.2 rfl
      have := (List.mem_filter.1 hmem).2
      simpa using this
    have hmain : ((mergeState s (some ⟨uo, ur, some us⟩)).useCases.getD []).filter
        (fun x => x.id == k) = [mergeUC e u] := by
      rw [hres, Option.getD_some]
      unfold mergeUseCases
      have hn0 : (mapKeys (l.foldl insertExisting [])).Nodup :=
        nodup_foldl_insertExisting _ _ (by simp [mapKeys])
      have hc0 : mapConsistent (l.foldl insertExisting []) :=
        consistent_foldl_insertExisting _ _ (by intro p hp; cases hp)
      rw [values_filter _ k (nodup_foldl_insertIncoming _ _ hn0)
        (consistent_foldl_insertIncoming _ _ hc0)]
      rw [mapGet_foldl_insertIncoming, hf]
      have hb : mapGet (l.foldl insertExisting []) k = some e := by
        rw [← hek]
        exact mapGet_build l e hn he
      rw [hb]
      rfl
    refine ⟨mergeUC e u, hmain, by simp [mergeUC, huid], ?_, ?_, ?_, ?_, ?_, ?_,
      ?_, ?_, ?_, ?_, ?_, ?_, ?_, ?_, ?_, ?_, ?_, ?_, ?_, ?_⟩ <;>
      first
        | (intro h; simp [mergeUC, ovr, h])
        | (intro v h; simp [mergeUC, ovr, h])
  · refine ⟨⟨none, none, some [⟨JsVal.str "uc-1", none, none, none, none,
      some "high", none, none, none, none, none⟩]⟩, rfl, by decide⟩

/-- Witness for C1 at the concrete records of the specification. -/
theorem c1_field_level_union_witness :
    ∃ r, ((mergeState ⟨none, none, some [exCaseA]⟩
        (some ⟨none, none, some [exCaseB]⟩)).useCases.getD []).filter
        (fun x => x.id == "uc-1") = [r] ∧
      r.id = "uc-1" ∧
      (exCaseB.name = none → r.name = exCaseA.name) ∧
      (∀ v, exCaseB.name = some v → r.name = some v) ∧
      (exCaseB.description = none → r.description = exCaseA.description) ∧
      (∀ v, exCaseB.description = some v → r.description = some v) ∧
      (exCaseB.process = none → r.process = exCaseA.process) ∧
      (∀ v, exCaseB.process = some v → r.process = some v) ∧
      (exCaseB.inScope = none → r.inScope = exCaseA.inScope) ∧
      (∀ v, exCaseB.inScope = some v → r.inScope = some v) ∧
      (exCaseB.risk = none → r.risk = exCaseA.risk) ∧
      (∀ v, exCaseB.risk = some v → r.risk = some v) ∧
      (exCaseB.model = none → r.model = exCaseA.model) ∧
      (∀ v, exCaseB.model = some v → r.model = some v) ∧
      (exCaseB.data = none → r.data = exCaseA.data) ∧
      (∀ v, exCaseB.data = some v → r.data = some v) ∧
      (exCaseB.subjects = none → r.subjects = exCaseA.subjects) ∧
      (∀ v, exCaseB.subjects = some v → r.subjects = some v) ∧
      (exCaseB.owner = none → r.owner = exCaseA.owner) ∧
      (∀ v, exCaseB.owner = some v → r.owner = some v) ∧
      (exCaseB.jurisdictions = none → r.jurisdictions = exCaseA.jurisdictions) ∧
      (∀ v, exCaseB.jurisdictions = some v → r.jurisdictions = some v) :=
  c1_field_level_union.1 ⟨none, none, some [exCaseA]⟩ [exCaseA] [exCaseB]
    exCaseA exCaseB ⟨none, none, some [exCaseB]⟩ "uc-1"
    rfl (by decide) (by decide) (by decide) rfl (by decide)

/-! ## Lemmas: the sanitizer -/

theorem fallbackId_truthy (now idx : Nat) :
    jsTruthy (JsVal.str (fallbackId now idx)) = true := by
  simp only [jsTruthy, Bool.not_eq_true']
  rw [beq_eq_false_iff_ne]
  intro hcon
  have hlen : (fallbackId now idx).length = 0 := by rw [hcon]; rfl
  unfold fallbackId at hlen
  rw [String.length_append, String.length_append, String.length_append] at hlen
  have h3 : ("uc-" : String).length = 3 := rfl
  omega

theorem jsGet_eq_propSafe (o : JsVal) (k : String)
    (hT : jsTruthy o = true) (hO : typeofIsObject o = true) :
    jsGet o k = .ok (jsPropSafe o k) := by
  cases o with
  | null => simp [jsTruthy] at hT
  | undefVal => simp [jsTruthy] at hT
  | bool b => simp [typeofIsObject] at hO
  | num n => simp [typeofIsObject] at hO
  | str s => simp [typeofIsObject] at hO
  | arr xs => rfl
  | obj fs => rfl

theorem strField_ok (o : JsVal) (k : String)
    (hT : jsTruthy o = true) (hO : typeofIsObject o = true) :
    strField o k = .ok (if jsTruthy (jsPropSafe o k)
      then some (jsToString (jsPropSafe o k)) else none) := by
  cases o with
  | null => simp [jsTruthy] at hT
  | undefVal => simp [jsTruthy] at hT
  | bool b => simp [typeofIsObject] at hO
  | num n => simp [typeofIsObject] at hO
  | str s => simp [typeofIsObject] at hO
  | arr xs => rfl
  | obj fs => rfl

theorem sanitizeUseCase_id_ok (now idx : Nat) (u : JsVal) (r : SanUseCase)
    (h : sanitizeUseCase now idx u = .ok r) :
    jsTruthy r.id = true ∧
    (∀ v, jsGet u "id" = .ok v → jsTruthy v = false →
      r.id = JsVal.str (fallbackId now idx)) := by
  cases u with
  | null => cases h
  | undefVal => cases h
  | bool b =>
    have heq : sanitizeUseCase now idx (JsVal.bool b)
        = .ok ⟨JsVal.str (fallbackId now idx), none, none, none, none, none,
            none, none, none, none, none⟩ := rfl
    rw [heq] at h
    obtain rfl := Except.ok.inj h
    exact ⟨fallbackId_truthy now idx, fun v hv htr => rfl⟩
  | num n =>
    have heq : sanitizeUseCase now idx (JsVal.num n)
        = .ok ⟨JsVal.str (fallbackId now idx), none, none, none, none, none,
            none, none, none, none, none⟩ := rfl
    rw [heq] at h
    obtain rfl := Except.ok.inj h
    exact ⟨fallbackId_truthy now idx, fun v hv htr => rfl⟩
  | str s =>
    have heq : sanitizeUseCase now idx (JsVal.str s)
        = .ok ⟨JsVal.str (fallbackId now idx), none, none, none, none, none,
            none, none, none, none, none⟩ := rfl
    rw [heq] at h
    obtain rfl := Except.ok.inj h
    exact ⟨fallbackId_truthy now idx, fun v hv htr => rfl⟩
  | arr elems =>
    have heq : sanitizeUseCase now idx (JsVal.arr elems)
        = .ok ⟨JsVal.str (fallbackId now idx), none, none, none, none, none,
            none, none, none, none, none⟩ := rfl
    rw [heq] at h
    obtain rfl := Except.ok.inj h
    exact ⟨fallbackId_truthy now idx, fun v hv htr => rfl⟩
  | obj fields =>
    have heq : sanitizeUseCase now idx (JsVal.obj fields)
        = .ok ⟨(if jsTruthy (jsLookup fields "id") then jsLookup fields "id"
                else JsVal.str (fallbackId now idx)),
            (if jsTruthy (jsLookup fields "name")
              then some (jsToString (jsLookup fields "name")) else none),
            (if jsTruthy (jsLookup fields "description")
              then some (jsToString (jsLookup fields "description")) else none),
            (if jsTruthy (jsLookup fields "process")
              then some (jsToString (jsLookup fields "process")) else none),
            (match jsLookup fields "inScope" with
              | .bool b => some b | _ => none),
            (match jsLookup fields "risk" with
              | .str s => if riskLits.contains s then some s else none
              | _ => none),
            (if jsTruthy (jsLookup fields "model")
              then some (jsToString (jsLookup fields "model")) else none),
            (match jsLookup fields "data" with
              | .arr xs => some (filterStrings xs) | _ => none),
            (match jsLookup fields "subjects" with
              | .arr xs => some (filterStrings xs) | _ => none),
            (if jsTruthy (jsLookup fields "owner")
              then some (jsToString (jsLookup fields "owner")) else none),
            (match jsLookup fields "jurisdictions" with
              | .arr xs => some (filterStrings xs) | _ => none)⟩ := rfl
    rw [heq] at h
    obtain rfl := Except.ok.inj h
    constructor
    · by_cases htr : jsTruthy (jsLookup fields "id") = true
      · simp only [htr, if_true]
      · rw [if_neg (by simpa using htr)]
        exact fallbackId_truthy now idx
    · intro v hv htr
      have hv2 : jsLookup fields "id" = v := Except.ok.inj hv
      subst hv2
      simp only
      rw [if_neg (by simp [htr])]

theorem sanitizeUseCases_spec (now : Nat) (xs : List JsVal) (idx : Nat)
    (l : List SanUseCase) (h : sanitizeUseCases now idx xs = .ok l) :
    l.length = xs.length ∧
    ∀ r i u, (r, (i, u)) ∈ l.zip (List.enumFrom idx xs) →
      (jsTruthy r.id = true ∧
        ∀ v, jsGet u "id" = .ok v → jsTruthy v = false →
          r.id = JsVal.str (fallbackId now i)) := by
  induction xs generalizing idx l with
  | nil =>
    have hl : l = [] := by
      have : (Except.ok [] : Except String (List SanUseCase)) = .ok l := h
      exact (Except.ok.inj this).symm
    subst hl
    exact ⟨rfl, by intro r i u hm; cases hm⟩
  | cons x rest ih =>
    cases hx : sanitizeUseCase now idx x with
    | error e =>
      rw [sanitizeUseCases, hx] at h
      have h2 : (Except.error e : Except String (List SanUseCase)) = .ok l := h
      cases h2
    | ok r0 =>
      cases hrest : sanitizeUseCases now (idx + 1) rest with
      | error e =>
        rw [sanitizeUseCases, hx, hrest] at h
        have h2 : (Except.error e : Except String (List SanUseCase)) = .ok l := h
        cases h2
      | ok l0 =>
        have hl : l = r0 :: l0 := by
          rw [sanitizeUseCases, hx, hrest] at h
          have h2 : (Except.ok (r0 :: l0) : Except String (List SanUseCase)) = .ok l := h
          exact (Except.ok.inj h2).symm
        subst hl
        obtain ⟨ihlen, ihmem⟩ := ih (idx + 1) l0 hrest
        constructor
        · simp [ihlen]
        · intro r i u hm
          rw [List.enumFrom, List.zip_cons_cons] at hm
          rcases List.mem_cons.1 hm with hEq | hm2
          · have hsplit : r = r0 ∧ i = idx ∧ u = x := by
              simpa [Prod.ext_iff] using hEq
            obtain ⟨rfl, rfl, rfl⟩ := hsplit
            exact sanitizeUseCase_id_ok now i u r hx
          · exact ihmem r i u hm2

theorem exceptBindOk {α β : Type} (a : α) (f : α → Except String β) :
    (Bind.bind (Except.ok a) f : Except String β) = f a := rfl

theorem jsGet_obj (fields : List (String × JsVal)) (k : String) :
    jsGet (JsVal.obj fields) k = .ok (jsLookup fields k) := rfl


theorem sanitizeOrgStep_eq (o : JsVal) :
    sanitizeOrgStep o = .ok (if jsTruthy o && typeofIsObject o
      then some (SanOrg.mk
        (if jsTruthy (jsPropSafe o "name")
          then some (jsToString (jsPropSafe o "name")) else none)
        (if jsTruthy (jsPropSafe o "country")
          then some (jsToString (jsPropSafe o "country")) else none)
        (if jsTruthy (jsPropSafe o "industry")
          then some (jsToString (jsPropSafe o "industry")) else none)
        (if jsTruthy (jsPropSafe o "size")
          then some (jsToString (jsPropSafe o "size")) else none))
      else none) := by
  unfold sanitizeOrgStep
  by_cases hc : (jsTruthy o && typeofIsObject o) = true
  · have hand := hc
    rw [Bool.and_eq_true] at hand
    rw [if_pos hc, if_pos hc]
    rw [strField_ok o "name" hand.1 hand.2, strField_ok o "country" hand.1 hand.2,
      strField_ok o "industry" hand.1 hand.2, strField_ok o "size" hand.1 hand.2]
    rfl
  · rw [if_neg hc, if_neg hc]
    rfl

theorem sanitizeStateUpdates_obj_shape (now : Nat) (fields : List (String × JsVal))
    (res : Option SanState)
    (h : sanitizeStateUpdates now (JsVal.obj fields) = .ok res) :
    ∃ st, res = some st ∧
      st.org = (if jsTruthy (jsLookup fields "org")
            && typeofIsObject (jsLookup fields "org")
        then some (SanOrg.mk
          (if jsTruthy (jsPropSafe (jsLookup fields "org") "name")
            then some (jsToString (jsPropSafe (jsLookup fields "org") "name")) else none)
          (if jsTruthy (jsPropSafe (jsLookup fields "org") "country")
            then some (jsToString (jsPropSafe (jsLookup fields "org") "country")) else none)
          (if jsTruthy (jsPropSafe (jsLookup fields "org") "industry")
            then some (jsToString (jsPropSafe (jsLookup fields "org") "industry")) else none)
          (if jsTruthy (jsPropSafe (jsLookup fields "org") "size")
            then some (jsToString (jsPropSafe (jsLookup fields "org") "size")) else none))
        else none) ∧
      st.roles = sanitizeRolesStep (jsLookup fields "roles") ∧
      (match jsLookup fields "useCases" with
        | JsVal.arr xs => ∃ l, sanitizeUseCases now 0 xs = .ok l ∧ st.useCases = some l
        | _ => st.useCases = none) := by
  unfold sanitizeStateUpdates at h
  rw [if_neg (by simp [jsTruthy, typeofIsObject])] at h
  simp only [jsGet_obj, exceptBindOk] at h
  rw [sanitizeOrgStep_eq (jsLookup fields "org")] at h
  simp only [exceptBindOk] at h
  cases hu : jsLookup fields "useCases" with
  | arr xs =>
    rw [hu] at h
    cases hsan : sanitizeUseCases now 0 xs with
    | error e =>
      have hUC : sanitizeUCStep now (JsVal.arr xs) = .error e := by
        have hstep : sanitizeUCStep now (JsVal.arr xs)
            = Bind.bind (sanitizeUseCases now 0 xs)
              (fun l => pure (some l)) := rfl
        rw [hstep, hsan]
        rfl
      rw [hUC] at h
      have h2 : (Except.error e : Except String (Option SanState)) = .ok res := h
      cases h2
    | ok l =>
      have hUC : sanitizeUCStep now (JsVal.arr xs) = .ok (some l) := by
        have hstep : sanitizeUCStep now (JsVal.arr xs)
            = Bind.bind (sanitizeUseCases now 0 xs)
              (fun l => pure (some l)) := rfl
        rw [hstep, hsan]
        rfl
      rw [hUC] at h
      simp only [exceptBindOk] at h
      have h2 := Except.ok.inj h
      refine ⟨_, h2.symm, rfl, rfl, ?_⟩
      exact ⟨l, hsan, rfl⟩
  | null =>
    rw [hu] at h
    rw [show sanitizeUCStep now JsVal.null = .ok none from rfl] at h
    simp only [exceptBindOk] at h
    exact ⟨_, (Except.ok.inj h).symm, rfl, rfl, rfl⟩
  | undefVal =>
    rw [hu] at h
    rw [show sanitizeUCStep now JsVal.undefVal = .ok none from rfl] at h
    simp only [exceptBindOk] at h
    exact ⟨_, (Except.ok.inj h).symm, rfl, rfl, rfl⟩
  | bool b =>
    rw [hu] at h
    rw [show sanitizeUCStep now (JsVal.bool b) = .ok none from rfl] at h
    simp only [exceptBindOk] at h
    exact ⟨_, (Except.ok.inj h).symm, rfl, rfl, rfl⟩
  | num n =>
    rw [hu] at h
    rw [show sanitizeUCStep now (JsVal.num n) = .ok none from rfl] at h
    simp only [exceptBindOk] at h
    exact ⟨_, (Except.ok.inj h).symm, rfl, rfl, rfl⟩
  | str s =>
    rw [hu] at h
    rw [show sanitizeUCStep now (JsVal.str s) = .ok none from rfl] at h
    simp only [exceptBindOk] at h
    exact ⟨_, (Except.ok.inj h).symm, rfl, rfl, rfl⟩
  | obj ifs =>
    rw [hu] at h
    rw [show sanitizeUCStep now (JsVal.obj ifs) = .ok none from rfl] at h
    simp only [exceptBindOk] at h
    exact ⟨_, (Except.ok.inj h).symm, rfl, rfl, rfl⟩

theorem orgField_cases (orgV : JsVal) (k : String)
    (h3 : jsTruthy orgV = true) (h4 : typeofIsObject orgV = true) :
    ((jsGet orgV k = .ok JsVal.undefVal →
        (if jsTruthy (jsPropSafe orgV k)
          then some (jsToString (jsPropSafe orgV k)) else none) = none) ∧
      ∀ s, (if jsTruthy (jsPropSafe orgV k)
          then some (jsToString (jsPropSafe orgV k)) else none) = some s →
        ∃ v, jsGet orgV k = .ok v ∧ jsTruthy v = true ∧ s = jsToString v) := by
  constructor
  · intro hud
    rw [jsGet_eq_propSafe orgV k h3 h4] at hud
    have hv := Except.ok.inj hud
    rw [hv]
    rfl
  · intro s hs
    by_cases ht : jsTruthy (jsPropSafe orgV k) = true
    · rw [if_pos ht] at hs
      exact ⟨jsPropSafe orgV k, jsGet_eq_propSafe orgV k h3 h4, ht,
        (Option.some.inj hs).symm⟩
    · rw [if_neg ht] at hs
      cases hs

/-- Claim C3 (code bug): the sanitizer does return an empty no-op result
for any non-object input, but it is not exception-free: a `useCases`
array containing `null` makes the property access `u.id` throw a
TypeError, contradicting the code comment describing the function as a
safe sanitizer that avoids crashes on malformed state. -/
theorem c3_sanitizer_not_total :
    (sanitizeStateUpdates 0 (JsVal.str "plain prose") = .ok none) ∧
    (sanitizeStateUpdates 0 (JsVal.num 7) = .ok none) ∧
    (sanitizeStateUpdates 0 (JsVal.bool true) = .ok none) ∧
    (sanitizeStateUpdates 0 JsVal.null = .ok none) ∧
    (sanitizeStateUpdates 0 JsVal.undefVal = .ok none) ∧
    (sanitizeStateUpdates 0 (JsVal.obj [("useCases", JsVal.arr [JsVal.null])])
      = .error "TypeError: cannot read properties of null (reading id)") :=
  ⟨rfl, rfl, rfl, rfl, rfl, rfl⟩

/-- Claim C10: when the input `useCases` field is an array (and the
sanitizer succeeds, as it does on object-shaped elements), every output
record has a truthy id; an element whose id is absent or falsy gets the
synthesized fallback `uc-<timestamp>-<index>`. -/
theorem c10_sanitized_ids_truthy (now : Nat) (fields : List (String × JsVal))
    (st : SanState) (xs : List JsVal) (ucs : List SanUseCase)
    (h1 : sanitizeStateUpdates now (JsVal.obj fields) = .ok (some st))
    (h2 : jsLookup fields "useCases" = JsVal.arr xs)
    (h3 : st.useCases = some ucs) :
    ucs.length = xs.length ∧
    ∀ r i u, (r, (i, u)) ∈ ucs.zip (List.enumFrom 0 xs) →
      (jsTruthy r.id = true ∧
        ∀ v, jsGet u "id" = .ok v → jsTruthy v = false →
          r.id = JsVal.str (fallbackId now i)) := by
  obtain ⟨st2, hst2, _, _, huc⟩ := sanitizeStateUpdates_obj_shape now fields _ h1
  obtain rfl := Option.some.inj hst2
  rw [h2] at huc
  obtain ⟨l, hsan, hul⟩ := huc
  rw [h3] at hul
  obtain rfl := Option.some.inj hul
  exact sanitizeUseCases_spec now xs 0 ucs hsan

/-- Witness for C10: one use case with an absent id gets the fallback. -/
theorem c10_sanitized_ids_truthy_witness :
    ([(⟨JsVal.str (fallbackId 7 0), none, none, none, none, none, none, none,
        none, none, none⟩ : SanUseCase)].length
      = [JsVal.obj ([] : List (String × JsVal))].length) ∧
    ∀ r i u, (r, (i, u)) ∈ ([(⟨JsVal.str (fallbackId 7 0), none, none, none, none,
        none, none, none, none, none, none⟩ : SanUseCase)].zip
        (List.enumFrom 0 [JsVal.obj ([] : List (String × JsVal))])) →
      (jsTruthy r.id = true ∧
        ∀ v, jsGet u "id" = .ok v → jsTruthy v = false →
          r.id = JsVal.str (fallbackId 7 i)) :=
  c10_sanitized_ids_truthy 7 [("useCases", JsVal.arr [JsVal.obj []])]
    ⟨none, none, some [⟨JsVal.str (fallbackId 7 0), none, none, none, none,
      none, none, none, none, none, none⟩]⟩
    [JsVal.obj []]
    [⟨JsVal.str (fallbackId 7 0), none, none, none, none, none, none, none,
      none, none, none⟩]
    rfl rfl rfl

theorem merge_omitted_org (o : SanOrg) (prev : AgentState) (po : OrgInfo)
    (hpo : prev.org = some po) :
    ∃ mo, (mergeState prev
        (some ⟨some (sanOrgToOrg o), none, none⟩)).org = some mo ∧
      (o.name = none → mo.name = po.name) ∧
      (o.country = none → mo.country = po.country) ∧
      (o.industry = none → mo.industry = po.industry) ∧
      (o.size = none → mo.size = po.size) := by
  refine ⟨mergeOrg po (sanOrgToOrg o), by simp [mergeState, hpo], ?_, ?_, ?_, ?_⟩ <;>
    (intro hn; simp [mergeOrg, sanOrgToOrg, ovr, hn])

/-- Claim C4: when `input.org` is present, truthy and object-shaped,
the sanitizer copies each of the four known org fields only when it is
truthy in the source (coerced to string) and omits it otherwise, in
particular when it is absent; the client merge then leaves the prior
value of every omitted field unchanged. -/
theorem c4_org_field_omission (now : Nat) (input orgV : JsVal) (st : SanState)
    (h1 : sanitizeStateUpdates now input = .ok (some st))
    (h2 : jsGet input "org" = .ok orgV)
    (h3 : jsTruthy orgV = true) (h4 : typeofIsObject orgV = true) :
    ∃ o, st.org = some o ∧
      ((jsGet orgV "name" = .ok JsVal.undefVal → o.name = none) ∧
        ∀ s, o.name = some s →
          ∃ v, jsGet orgV "name" = .ok v ∧ jsTruthy v = true ∧ s = jsToString v) ∧
      ((jsGet orgV "country" = .ok JsVal.undefVal → o.country = none) ∧
        ∀ s, o.country = some s →
          ∃ v, jsGet orgV "country" = .ok v ∧ jsTruthy v = true ∧ s = jsToString v) ∧
      ((jsGet orgV "industry" = .ok JsVal.undefVal → o.industry = none) ∧
        ∀ s, o.industry = some s →
          ∃ v, jsGet orgV "industry" = .ok v ∧ jsTruthy v = true ∧ s = jsToString v) ∧
      ((jsGet orgV "size" = .ok JsVal.undefVal → o.size = none) ∧
        ∀ s, o.size = some s →
          ∃ v, jsGet orgV "size" = .ok v ∧ jsTruthy v = true ∧ s = jsToString v) ∧
      (∀ (prev : AgentState) (po : OrgInfo), prev.org = some po →
        ∃ mo, (mergeState prev
            (some ⟨some (sanOrgToOrg o), none, none⟩)).org = some mo ∧
          (o.name = none → mo.name = po.name) ∧
          (o.country = none → mo.country = po.country) ∧
          (o.industry = none → mo.industry = po.industry) ∧
          (o.size = none → mo.size = po.size)) := by
  cases input with
  | null => cases h2
  | undefVal => cases h2
  | bool b =>
    obtain rfl := Except.ok.inj h2
    simp [jsTruthy] at h3
  | num n =>
    obtain rfl := Except.ok.inj h2
    simp [jsTruthy] at h3
  | str s =>
    obtain rfl := Except.ok.inj h2
    simp [jsTruthy] at h3
  | arr xs =>
    obtain rfl := Except.ok.inj h2
    simp [jsTruthy] at h3
  | obj fields =>
    obtain rfl := Except.ok.inj h2
    obtain ⟨st2, hst2, horg, _, _⟩ := sanitizeStateUpdates_obj_shape now fields _ h1
    obtain rfl := Option.some.inj hst2
    rw [if_pos (by rw [h3, h4]; rfl)] at horg
    refine ⟨_, horg, orgField_cases _ "name" h3 h4, orgField_cases _ "country" h3 h4,
      orgField_cases _ "industry" h3 h4, orgField_cases _ "size" h3 h4, ?_⟩
    exact fun prev po hpo => merge_omitted_org _ prev po hpo

/-- Witness for C4: an org carrying only a name; the other three fields
are omitted, and merging preserves their prior values. -/
theorem c4_org_field_omission_witness :
    ∃ o, (SanState.mk (some (SanOrg.mk (some "Acme") none none none))
        none none).org = some o ∧
      ((jsGet (JsVal.obj [("name", JsVal.str "Acme")]) "name" = .ok JsVal.undefVal →
          o.name = none) ∧
        ∀ s, o.name = some s →
          ∃ v, jsGet (JsVal.obj [("name", JsVal.str "Acme")]) "name" = .ok v ∧
            jsTruthy v = true ∧ s = jsToString v) ∧
      ((jsGet (JsVal.obj [("name", JsVal.str "Acme")]) "country" = .ok JsVal.undefVal →
          o.country = none) ∧
        ∀ s, o.country = some s →
          ∃ v, jsGet (JsVal.obj [("name", JsVal.str "Acme")]) "country" = .ok v ∧
            jsTruthy v = true ∧ s = jsToString v) ∧
      ((jsGet (JsVal.obj [("name", JsVal.str "Acme")]) "industry" = .ok JsVal.undefVal →
          o.industry = none) ∧
        ∀ s, o.industry = some s →
          ∃ v, jsGet (JsVal.obj [("name", JsVal.str "Acme")]) "industry" = .ok v ∧
            jsTruthy v = true ∧ s = jsToString v) ∧
      ((jsGet (JsVal.obj [("name", JsVal.str "Acme")]) "size" = .ok JsVal.undefVal →
          o.size = none) ∧
        ∀ s, o.size = some s →
          ∃ v, jsGet (JsVal.obj [("name", JsVal.str "Acme")]) "size" = .ok v ∧
            jsTruthy v = true ∧ s = jsToString v) ∧
      (∀ (prev : AgentState) (po : OrgInfo), prev.org = some po →
        ∃ mo, (mergeState prev
            (some ⟨some (sanOrgToOrg o), none, none⟩)).org = some mo ∧
          (o.name = none → mo.name = po.name) ∧
          (o.country = none → mo.country = po.country) ∧
          (o.industry = none → mo.industry = po.industry) ∧
          (o.size = none → mo.size = po.size)) :=
  c4_org_field_omission 3
    (JsVal.obj [("org", JsVal.obj [("name", JsVal.str "Acme")])])
    (JsVal.obj [("name", JsVal.str "Acme")])
    (SanState.mk (some (SanOrg.mk (some "Acme") none none none)) none none)
    rfl rfl rfl rfl

/-! ## Lemmas: the response extractor -/

theorem noBt_cons (c : Char) (l : List Char) (h : noBt (c :: l) = true) :
    (c == btChar) = false ∧ noBt l = true := by
  simp only [noBt, List.all_cons, Bool.and_eq_true, Bool.not_eq_true'] at h
  exact ⟨h.1, h.2⟩

theorem noBt_append (a b : List Char) (ha : noBt a = true) (hb : noBt b = true) :
    noBt (a ++ b) = true := by
  simp only [noBt, List.all_append, Bool.and_eq_true]
  exact ⟨ha, hb⟩

theorem startsFence_head_false (c : Char) (l : List Char)
    (h : (c == btChar) = false) : startsFence (c :: l) = false := by
  rcases l with _ | ⟨a, _ | ⟨b, t⟩⟩ <;> simp [startsFence, h]

theorem startsFence_second_false (y : Char) (x : Char) (l : List Char)
    (h : (y == btChar) = false) : startsFence (x :: y :: l) = false := by
  rcases l with _ | ⟨a, t⟩ <;> simp [startsFence, h]

theorem startsFence_third_false (z : Char) (x y : Char) (l : List Char)
    (h : (z == btChar) = false) : startsFence (x :: y :: z :: l) = false := by
  simp [startsFence, h]

theorem startsJsonTag_of_fence_false (s : List Char)
    (h : startsFence s = false) : startsJsonTag s = false := by
  unfold startsJsonTag
  rw [h]
  rfl

theorem startsJsonTag_head_false (c : Char) (l : List Char)
    (h : (c == btChar) = false) : startsJsonTag (c :: l) = false :=
  startsJsonTag_of_fence_false _ (startsFence_head_false c l h)

theorem startsJsonWord_head_false (c : Char) (l : List Char)
    (h1 : (c == 'j') = false) (h2 : (c == 'J') = false) :
    startsJsonWord (c :: l) = false := by
  rcases l with _ | ⟨a, _ | ⟨b, _ | ⟨d, t⟩⟩⟩ <;> simp [startsJsonWord, h1, h2]

theorem startsJsonTag_fence3 (l : List Char) :
    startsJsonTag (btChar :: btChar :: btChar :: l) = startsJsonWord l := by
  simp [startsJsonTag, startsFence]

theorem notJsonStart_shape (c : List Char) (h : notJsonStart c = true) :
    ∃ c0 ct, c = c0 :: ct ∧ (c0 == 'j') = false ∧ (c0 == 'J') = false := by
  cases c with
  | nil => cases h
  | cons c0 ct =>
    simp only [notJsonStart, Bool.not_eq_true', Bool.or_eq_false_iff] at h
    exact ⟨c0, ct, rfl, h.1, h.2⟩

theorem headSafe_of_noBt (l : List Char) (h : noBt l = true) :
    (l.headD ' ' == btChar) = false := by
  cases l with
  | nil => decide
  | cons c t => exact (noBt_cons c t h).1

theorem splitAtClose_length (s : List Char) (b a : List Char)
    (h : splitAtClose s = some (b, a)) : a.length < s.length := by
  induction s generalizing b a with
  | nil => cases h
  | cons c rest ih =>
    rw [splitAtClose] at h
    by_cases hf : startsFence (c :: rest) = true
    · rw [if_pos hf] at h
      have h2 := Option.some.inj h
      have ha : a = rest.drop 2 := (congrArg Prod.snd h2).symm
      subst ha
      simp only [List.length_cons, List.length_drop]
      omega
    · rw [if_neg hf] at h
      cases hs : splitAtClose rest with
      | some p =>
        obtain ⟨b2, a2⟩ := p
        rw [hs] at h
        have h2 := Option.some.inj h
        have ha : a = a2 := (congrArg Prod.snd h2).symm
        have hlen := ih b2 a2 hs
        rw [ha]
        simp only [List.length_cons]
        omega
      | none =>
        rw [hs] at h
        cases h

theorem splitAtClose_append (b r : List Char) (hb : noBt b = true) :
    splitAtClose (b ++ btChar :: btChar :: btChar :: r) = some (b, r) := by
  induction b with
  | nil =>
    rw [List.nil_append, splitAtClose]
    rw [if_pos (by simp [startsFence])]
    rfl
  | cons c t ih =>
    obtain ⟨hc, ht⟩ := noBt_cons c t hb
    rw [List.cons_append, splitAtClose]
    rw [if_neg (by simp [startsFence_head_false c _ hc])]
    rw [ih ht]

theorem splitAtClose_noBt (s : List Char) (hs : noBt s = true) :
    splitAtClose s = none := by
  induction s with
  | nil => rfl
  | cons c t ih =>
    obtain ⟨hc, ht⟩ := noBt_cons c t hs
    rw [splitAtClose]
    rw [if_neg (by simp [startsFence_head_false c _ hc])]
    rw [ih ht]

theorem stripJF_fuel (f1 : Nat) (f2 : Nat) (s : List Char)
    (h1 : s.length ≤ f1) (h2 : s.length ≤ f2) : stripJF f1 s = stripJF f2 s := by
  induction f1 generalizing f2 s with
  | zero =>
    have hs : s = [] := List.eq_nil_of_length_eq_zero (Nat.le_zero.1 h1)
    subst hs
    cases f2 <;> rfl
  | succ g ih =>
    cases s with
    | nil => cases f2 <;> rfl
    | cons c rest =>
      cases f2 with
      | zero => simp at h2
      | succ g2 =>
        simp only [List.length_cons] at h1 h2
        rw [stripJF, stripJF]
        by_cases htag : startsJsonTag (c :: rest) = true
        · rw [if_pos htag, if_pos htag]
          cases hs : splitAtClose ((c :: rest).drop 7) with
          | some p =>
            obtain ⟨b, a⟩ := p
            have hlen : a.length < ((c :: rest).drop 7).length :=
              splitAtClose_length _ _ _ hs
            simp only [List.length_drop, List.length_cons] at hlen
            exact ih g2 a (by omega) (by omega)
          | none =>
            rw [ih g2 rest (by omega) (by omega)]
        · rw [if_neg htag, if_neg htag]
          rw [ih g2 rest (by omega) (by omega)]

theorem stripAF_fuel (f1 : Nat) (f2 : Nat) (s : List Char)
    (h1 : s.length ≤ f1) (h2 : s.length ≤ f2) : stripAF f1 s = stripAF f2 s := by
  induction f1 generalizing f2 s with
  | zero =>
    have hs : s = [] := List.eq_nil_of_length_eq_zero (Nat.le_zero.1 h1)
    subst hs
    cases f2 <;> rfl
  | succ g ih =>
    cases s with
    | nil => cases f2 <;> rfl
    | cons c rest =>
      cases f2 with
      | zero => simp at h2
      | succ g2 =>
        simp only [List.length_cons] at h1 h2
        rw [stripAF, stripAF]
        by_cases htag : startsFence (c :: rest) = true
        · rw [if_pos htag, if_pos htag]
          cases hs : splitAtClose ((c :: rest).drop 3) with
          | some p =>
            obtain ⟨b, a⟩ := p
            have hlen : a.length < ((c :: rest).drop 3).length :=
              splitAtClose_length _ _ _ hs
            simp only [List.length_drop, List.length_cons] at hlen
            exact ih g2 a (by omega) (by omega)
          | none =>
            rw [ih g2 rest (by omega) (by omega)]
        · rw [if_neg htag, if_neg htag]
          rw [ih g2 rest (by omega) (by omega)]

theorem stripJsonFences_cons (c : Char) (rest : List Char) :
    stripJsonFences (c :: rest)
      = if startsJsonTag (c :: rest) then
          match splitAtClose ((c :: rest).drop 7) with
          | some (_, a) => stripJsonFences a
          | none => c :: stripJsonFences rest
        else c :: stripJsonFences rest := by
  unfold stripJsonFences
  rw [show (c :: rest).length = rest.length + 1 from rfl]
  rw [stripJF]
  by_cases htag : startsJsonTag (c :: rest) = true
  · rw [if_pos htag, if_pos htag]
    cases hs : splitAtClose ((c :: rest).drop 7) with
    | some p =>
      obtain ⟨b, a⟩ := p
      have hlen : a.length < ((c :: rest).drop 7).length :=
        splitAtClose_length _ _ _ hs
      simp only [List.length_drop, List.length_cons] at hlen
      exact stripJF_fuel _ _ a (by omega) (by omega)
    | none => rfl
  · rw [if_neg htag, if_neg htag]

theorem stripAllFences_cons (c : Char) (rest : List Char) :
    stripAllFences (c :: rest)
      = if startsFence (c :: rest) then
          match splitAtClose ((c :: rest).drop 3) with
          | some (_, a) => stripAllFences a
          | none => c :: stripAllFences rest
        else c :: stripAllFences rest := by
  unfold stripAllFences
  rw [show (c :: rest).length = rest.length + 1 from rfl]
  rw [stripAF]
  by_cases htag : startsFence (c :: rest) = true
  · rw [if_pos htag, if_pos htag]
    cases hs : splitAtClose ((c :: rest).drop 3) with
    | some p =>
      obtain ⟨b, a⟩ := p
      have hlen : a.length < ((c :: rest).drop 3).length :=
        splitAtClose_length _ _ _ hs
      simp only [List.length_drop, List.length_cons] at hlen
      exact stripAF_fuel _ _ a (by omega) (by omega)
    | none => rfl
  · rw [if_neg htag, if_neg htag]

theorem findJsonFence_append (a r : List Char) (ha : noBt a = true) :
    findJsonFence (a ++ r) = findJsonFence r := by
  induction a with
  | nil => rfl
  | cons c t ih =>
    obtain ⟨hc, ht⟩ := noBt_cons c t ha
    rw [List.cons_append, findJsonFence]
    rw [if_neg (by simp [startsJsonTag_head_false c _ hc])]
    exact ih ht

theorem stripJsonFences_append (a r : List Char) (ha : noBt a = true) :
    stripJsonFences (a ++ r) = a ++ stripJsonFences r := by
  induction a with
  | nil => rfl
  | cons c t ih =>
    obtain ⟨hc, ht⟩ := noBt_cons c t ha
    rw [List.cons_append, stripJsonFences_cons]
    rw [if_neg (by simp [startsJsonTag_head_false c _ hc])]
    rw [ih ht, List.cons_append]

theorem stripAllFences_append (a r : List Char) (ha : noBt a = true) :
    stripAllFences (a ++ r) = a ++ stripAllFences r := by
  induction a with
  | nil => rfl
  | cons c t ih =>
    obtain ⟨hc, ht⟩ := noBt_cons c t ha
    rw [List.cons_append, stripAllFences_cons]
    rw [if_neg (by simp [startsFence_head_false c _ hc])]
    rw [ih ht, List.cons_append]

theorem stripJsonFences_noBt (s : List Char) (hs : noBt s = true) :
    stripJsonFences s = s := by
  have h := stripJsonFences_append s [] hs
  rw [List.append_nil] at h
  rw [h, show stripJsonFences [] = [] from rfl, List.append_nil]

theorem stripAllFences_noBt (s : List Char) (hs : noBt s = true) :
    stripAllFences s = s := by
  have h := stripAllFences_append s [] hs
  rw [List.append_nil] at h
  rw [h, show stripAllFences [] = [] from rfl, List.append_nil]

theorem findJsonFence_tag (b r : List Char) (hb : noBt b = true) :
    findJsonFence (fenceTag ++ (b ++ (fence3 ++ r)))
      = some (b.dropWhile jsWs) := by
  have hT : fenceTag ++ (b ++ (fence3 ++ r))
      = btChar :: btChar :: btChar :: 'j' :: 's' :: 'o' :: 'n'
        :: (b ++ btChar :: btChar :: btChar :: r) := by
    simp [fenceTag, fence3]
  rw [hT, findJsonFence]
  rw [if_pos (by simp [startsJsonTag, startsFence, startsJsonWord])]
  rw [show (btChar :: btChar :: btChar :: 'j' :: 's' :: 'o' :: 'n'
      :: (b ++ btChar :: btChar :: btChar :: r)).drop 7
      = b ++ btChar :: btChar :: btChar :: r from rfl]
  rw [splitAtClose_append b r hb]

theorem stripJsonFences_tag (b r : List Char) (hb : noBt b = true) :
    stripJsonFences (fenceTag ++ (b ++ (fence3 ++ r))) = stripJsonFences r := by
  have hT : fenceTag ++ (b ++ (fence3 ++ r))
      = btChar :: btChar :: btChar :: 'j' :: 's' :: 'o' :: 'n'
        :: (b ++ btChar :: btChar :: btChar :: r) := by
    simp [fenceTag, fence3]
  rw [hT, stripJsonFences_cons]
  rw [if_pos (by simp [startsJsonTag, startsFence, startsJsonWord])]
  rw [show (btChar :: btChar :: btChar :: 'j' :: 's' :: 'o' :: 'n'
      :: (b ++ btChar :: btChar :: btChar :: r)).drop 7
      = b ++ btChar :: btChar :: btChar :: r from rfl]
  rw [splitAtClose_append b r hb]

theorem stripAllFences_block (d r : List Char) (hd : noBt d = true) :
    stripAllFences (fence3 ++ (d ++ (fence3 ++ r))) = stripAllFences r := by
  have hT : fence3 ++ (d ++ (fence3 ++ r))
      = btChar :: btChar :: btChar :: (d ++ btChar :: btChar :: btChar :: r) := by
    simp [fence3]
  rw [hT, stripAllFences_cons]
  rw [if_pos (by simp [startsFence])]
  rw [show (btChar :: btChar :: btChar
      :: (d ++ btChar :: btChar :: btChar :: r)).drop 3
      = d ++ btChar :: btChar :: btChar :: r from rfl]
  rw [splitAtClose_append d r hd]

theorem findJsonFence_two_bt (r : List Char)
    (hr : (r.headD ' ' == btChar) = false) :
    findJsonFence (btChar :: btChar :: r) = findJsonFence r := by
  cases r with
  | nil => rfl
  | cons r0 rt =>
    have hr0 : (r0 == btChar) = false := hr
    rw [findJsonFence]
    rw [if_neg (by simp [startsJsonTag_of_fence_false _
      (startsFence_third_false r0 btChar btChar _ hr0)])]
    rw [findJsonFence]
    rw [if_neg (by simp [startsJsonTag_of_fence_false _
      (startsFence_second_false r0 btChar _ hr0)])]

theorem stripJsonFences_two_bt (r : List Char)
    (hr : (r.headD ' ' == btChar) = false) :
    stripJsonFences (btChar :: btChar :: r)
      = btChar :: btChar :: stripJsonFences r := by
  cases r with
  | nil => rfl
  | cons r0 rt =>
    have hr0 : (r0 == btChar) = false := hr
    rw [stripJsonFences_cons]
    rw [if_neg (by simp [startsJsonTag_of_fence_false _
      (startsFence_third_false r0 btChar btChar _ hr0)])]
    rw [stripJsonFences_cons]
    rw [if_neg (by simp [startsJsonTag_of_fence_false _
      (startsFence_second_false r0 btChar _ hr0)])]

theorem findJsonFence_fence_skip (d r : List Char)
    (hd : noBt d = true) (hdj : notJsonStart d = true)
    (hr1 : startsJsonWord r = false)
    (hr2 : (r.headD ' ' == btChar) = false) :
    findJsonFence (fence3 ++ (d ++ (fence3 ++ r))) = findJsonFence r := by
  obtain ⟨d0, dt, rfl, hj1, hj2⟩ := notJsonStart_shape d hdj
  obtain ⟨hd0, hdt⟩ := noBt_cons d0 dt hd
  have hT : fence3 ++ ((d0 :: dt) ++ (fence3 ++ r))
      = btChar :: btChar :: btChar
        :: (d0 :: (dt ++ btChar :: btChar :: btChar :: r)) := by
    simp [fence3]
  rw [hT, findJsonFence]
  rw [if_neg (by
    rw [startsJsonTag_fence3]
    simp [startsJsonWord_head_false d0 _ hj1 hj2])]
  rw [findJsonFence]
  rw [if_neg (by simp [startsJsonTag_of_fence_false _
    (startsFence_third_false d0 btChar btChar _ hd0)])]
  rw [findJsonFence]
  rw [if_neg (by simp [startsJsonTag_of_fence_false _
    (startsFence_second_false d0 btChar _ hd0)])]
  rw [show d0 :: (dt ++ btChar :: btChar :: btChar :: r)
      = (d0 :: dt) ++ btChar :: btChar :: btChar :: r from rfl]
  rw [findJsonFence_append _ _ hd]
  rw [findJsonFence]
  rw [if_neg (by rw [startsJsonTag_fence3]; simp [hr1])]
  exact findJsonFence_two_bt r hr2

theorem stripJsonFences_fence_skip (d r : List Char)
    (hd : noBt d = true) (hdj : notJsonStart d = true)
    (hr1 : startsJsonWord r = false)
    (hr2 : (r.headD ' ' == btChar) = false) :
    stripJsonFences (fence3 ++ (d ++ (fence3 ++ r)))
      = fence3 ++ (d ++ (fence3 ++ stripJsonFences r)) := by
  obtain ⟨d0, dt, rfl, hj1, hj2⟩ := notJsonStart_shape d hdj
  obtain ⟨hd0, hdt⟩ := noBt_cons d0 dt hd
  have hT : fence3 ++ ((d0 :: dt) ++ (fence3 ++ r))
      = btChar :: btChar :: btChar
        :: (d0 :: (dt ++ btChar :: btChar :: btChar :: r)) := by
    simp [fence3]
  rw [hT, stripJsonFences_cons]
  rw [if_neg (by
    rw [startsJsonTag_fence3]
    simp [startsJsonWord_head_false d0 _ hj1 hj2])]
  rw [stripJsonFences_cons]
  rw [if_neg (by simp [startsJsonTag_of_fence_false _
    (startsFence_third_false d0 btChar btChar _ hd0)])]
  rw [stripJsonFences_cons]
  rw [if_neg (by simp [startsJsonTag_of_fence_false _
    (startsFence_second_false d0 btChar _ hd0)])]
  rw [show d0 :: (dt ++ btChar :: btChar :: btChar :: r)
      = (d0 :: dt) ++ btChar :: btChar :: btChar :: r from rfl]
  rw [stripJsonFences_append _ _ hd]
  rw [stripJsonFences_cons]
  rw [if_neg (by rw [startsJsonTag_fence3]; simp [hr1])]
  rw [stripJsonFences_two_bt r hr2]
  simp [fence3]

/-- Claim C8: on text containing both a tagged fenced block and a stray
untagged fenced block, in either order (fragments are backtick-free;
the stray body and the text before the tagged block are nonempty and do
not begin with the tag letter, which is what keeps the stray fence
untagged), the parse candidate is the tagged block interior with the
leading whitespace run dropped, and the narrative is the original text
with both fenced blocks stripped and then trimmed. -/
theorem c8_fenced_block_priority (a b c d e : List Char)
    (ha : noBt a = true) (hb : noBt b = true) (hc : noBt c = true)
    (hd : noBt d = true) (he : noBt e = true)
    (hcj : notJsonStart c = true) (hdj : notJsonStart d = true)
    (hej : startsJsonWord e = false) :
    (jsonCandidate (a ++ (fenceTag ++ (b ++ (fence3
        ++ (c ++ (fence3 ++ (d ++ (fence3 ++ e))))))))
      = some (b.dropWhile jsWs)) ∧
    (cleanReply (a ++ (fenceTag ++ (b ++ (fence3
        ++ (c ++ (fence3 ++ (d ++ (fence3 ++ e))))))))
      = jsTrim (a ++ (c ++ e))) ∧
    (jsonCandidate (a ++ (fence3 ++ (d ++ (fence3
        ++ (c ++ (fenceTag ++ (b ++ (fence3 ++ e))))))))
      = some (b.dropWhile jsWs)) ∧
    (cleanReply (a ++ (fence3 ++ (d ++ (fence3
        ++ (c ++ (fenceTag ++ (b ++ (fence3 ++ e))))))))
      = jsTrim (a ++ (c ++ e))) := by
  obtain ⟨c0, ct, hceq, hcj1, hcj2⟩ := notJsonStart_shape c hcj
  have hw1 : startsJsonWord (c ++ (fenceTag ++ (b ++ (fence3 ++ e)))) = false := by
    rw [hceq, List.cons_append]
    exact startsJsonWord_head_false c0 _ hcj1 hcj2
  have hw2 : ((c ++ (fenceTag ++ (b ++ (fence3 ++ e)))).headD ' ' == btChar)
      = false := by
    rw [hceq, List.cons_append]
    exact (noBt_cons c0 ct (hceq ▸ hc)).1
  refine ⟨?_, ?_, ?_, ?_⟩
  · unfold jsonCandidate
    rw [findJsonFence_append a _ ha, findJsonFence_tag b _ hb]
  · unfold cleanReply
    rw [stripJsonFences_append a _ ha, stripJsonFences_tag b _ hb,
      stripJsonFences_append c _ hc,
      stripJsonFences_fence_skip d e hd hdj hej (headSafe_of_noBt e he),
      stripJsonFences_noBt e he,
      stripAllFences_append a _ ha, stripAllFences_append c _ hc,
      stripAllFences_block d _ hd, stripAllFences_noBt e he]
  · unfold jsonCandidate
    rw [findJsonFence_append a _ ha,
      findJsonFence_fence_skip d _ hd hdj hw1 hw2,
      findJsonFence_append c _ hc, findJsonFence_tag b e hb]
  · unfold cleanReply
    rw [stripJsonFences_append a _ ha,
      stripJsonFences_fence_skip d _ hd hdj hw1 hw2,
      stripJsonFences_append c _ hc, stripJsonFences_tag b e hb,
      stripJsonFences_noBt e he,
      stripAllFences_append a _ ha, stripAllFences_block d _ hd,
      stripAllFences_append c _ hc, stripAllFences_noBt e he]

/-- Witness for C8 on concrete text fragments. -/
theorem c8_fenced_block_priority_witness :
    (jsonCandidate ("Intro. ".toList ++ (fenceTag ++ (" payload ".toList ++ (fence3
        ++ (" middle ".toList ++ (fence3 ++ ("x code".toList
        ++ (fence3 ++ " end.".toList))))))))
      = some (" payload ".toList.dropWhile jsWs)) ∧
    (cleanReply ("Intro. ".toList ++ (fenceTag ++ (" payload ".toList ++ (fence3
        ++ (" middle ".toList ++ (fence3 ++ ("x code".toList
        ++ (fence3 ++ " end.".toList))))))))
      = jsTrim ("Intro. ".toList ++ (" middle ".toList ++ " end.".toList))) ∧
    (jsonCandidate ("Intro. ".toList ++ (fence3 ++ ("x code".toList ++ (fence3
        ++ (" middle ".toList ++ (fenceTag ++ (" payload ".toList
        ++ (fence3 ++ " end.".toList))))))))
      = some (" payload ".toList.dropWhile jsWs)) ∧
    (cleanReply ("Intro. ".toList ++ (fence3 ++ ("x code".toList ++ (fence3
        ++ (" middle ".toList ++ (fenceTag ++ (" payload ".toList
        ++ (fence3 ++ " end.".toList))))))))
      = jsTrim ("Intro. ".toList ++ (" middle ".toList ++ " end.".toList))) :=
  c8_fenced_block_priority "Intro. ".toList " payload ".toList " middle ".toList
    "x code".toList " end.".toList
    (by decide) (by decide) (by decide) (by decide) (by decide)
    (by decide) (by decide) (by decide)

/-- Claim C9: when the structured candidate fails to parse, extraction
degrades silently: no structured payload, no list fields, the narrative
is still the fence-stripped trim of the reply, and the state receives
no updates for the turn (a no-update merge leaves every state
unchanged). -/
theorem c9_parse_failure_degrades (parse : List Char → Option JsVal)
    (now : Nat) (reply t : List Char)
    (h1 : jsonCandidate reply = some t)
    (h2 : t.isEmpty = false)
    (h3 : parse t = none) :
    (processReply parse now reply).stateUpdates = none ∧
    (processReply parse now reply).useCases = none ∧
    (processReply parse now reply).suggestions = none ∧
    (processReply parse now reply).guidance = none ∧
    (processReply parse now reply).questions = none ∧
    (processReply parse now reply).examples = none ∧
    (processReply parse now reply).roadmap = none ∧
    (processReply parse now reply).reply = cleanReply reply ∧
    (∀ s : AgentState, mergeState s none = s) := by
  refine ⟨?_, ?_, ?_, ?_, ?_, ?_, ?_, ?_, fun s => rfl⟩ <;>
    simp [processReply, h1, h2, h3]

/-- Witness for C9: a brace-matched candidate that fails to parse. -/
theorem c9_parse_failure_degrades_witness :
    (processReply (fun _ => none) 0 "hello \x7bnot valid\x7d tail".toList).stateUpdates
        = none ∧
    (processReply (fun _ => none) 0 "hello \x7bnot valid\x7d tail".toList).useCases
        = none ∧
    (processReply (fun _ => none) 0 "hello \x7bnot valid\x7d tail".toList).suggestions
        = none ∧
    (processReply (fun _ => none) 0 "hello \x7bnot valid\x7d tail".toList).guidance
        = none ∧
    (processReply (fun _ => none) 0 "hello \x7bnot valid\x7d tail".toList).questions
        = none ∧
    (processReply (fun _ => none) 0 "hello \x7bnot valid\x7d tail".toList).examples
        = none ∧
    (processReply (fun _ => none) 0 "hello \x7bnot valid\x7d tail".toList).roadmap
        = none ∧
    (processReply (fun _ => none) 0 "hello \x7bnot valid\x7d tail".toList).reply
        = cleanReply "hello \x7bnot valid\x7d tail".toList ∧
    (∀ s : AgentState, mergeState s none = s) :=
  c9_parse_failure_degrades (fun _ => none) 0
    "hello \x7bnot valid\x7d tail".toList "\x7bnot valid\x7d".toList
    (by decide) (by decide) rfl

/-- Counterexample to claim C2 as stated: whitespace-only user text is a
truthy string, so the handler validation passes and the upstream model
is contacted. -/
theorem c2_whitespace_reaches_model :
    handlerPre "POST" (JsVal.obj [("input", JsVal.str " ")]) "test-key" none
      = PreOutcome.callModel "gpt-4o-mini" " " JsVal.undefVal := rfl

/-- Claim C2 amended: the handler rejects a missing, empty or non-string
userText with a 400 error before any network activity (the model-call
outcome is never produced, and a rejection carries no state update);
whitespace-only non-empty text is not rejected by the handler. -/
theorem c2_empty_input_rejected (body : JsVal) (apiKey : String)
    (envModel : Option String)
    (h : jsTruthy (jsPropSafe (if jsTruthy body then body else .obj [])
          "input") = false
       ∨ isStringV (jsPropSafe (if jsTruthy body then body else .obj [])
          "input") = false) :
    handlerPre "POST" body apiKey envModel
      = .reject 400 "Missing \"input\" string in body" := by
  unfold handlerPre
  rw [if_neg (by simp)]
  rw [if_pos ?cond]
  case cond => rcases h with h | h <;> simp [h]

/-- Witness for the amended C2 at the empty string. -/
theorem c2_empty_input_rejected_witness :
    handlerPre "POST" (JsVal.obj [("input", JsVal.str "")]) "test-key" none
      = .reject 400 "Missing \"input\" string in body" :=
  c2_empty_input_rejected (JsVal.obj [("input", JsVal.str "")]) "test-key" none
    (Or.inl (by decide))
